import Mathlib

/-!
Verification development for the source registry of `lncrawl`
(`src/lncrawl/core/sources.py`).

The Python module is shallowly embedded: Python dicts become association
lists with Python's update/insertion-order semantics, Python strings become
`String`/`List Char`, the pieces of the standard library the module relies on
(`str.replace`, `str.lower`, `str.strip`, `re.match` for the one fixed
pattern, `urllib.parse.urlparse(...).hostname`) are modelled character by
character, and the file-system / network effects are passed in explicitly as
data (a map from paths to file contents, a map from URLs to fetch results).
Unicode-only behaviours (non-ASCII case folding, non-ASCII whitespace) are
out of scope: `str.lower`, `\s` and `isalnum` are modelled on their ASCII
fragments, which is what every URL handled by the module consists of.
-/

namespace LNCrawl

/-! ### Python dictionaries as association lists

A Python `dict` preserves insertion order; assignment to an existing key
updates the value in place (keeping the key's position) while assignment to
a fresh key appends at the end.  `setdefault` only inserts when the key is
absent.  We key every dict by `String`, matching the module.  -/

abbrev Dict (α : Type) := List (String × α)

/-- Lookup, first binding wins (assoc lists built by `dset` have unique keys). -/
def dget {α : Type} : Dict α → String → Option α
  | [], _ => none
  | (k', v) :: rest, k => if k' = k then some v else dget rest k

/-- Python `d[k] = v`: update in place if present, append at end if absent. -/
def dset {α : Type} : Dict α → String → α → Dict α
  | [], k, v => [(k, v)]
  | (k', v') :: rest, k, v =>
    if k' = k then (k, v) :: rest else (k', v') :: dset rest k v

/-- Python `d.setdefault(k, v)`: insert only when the key is absent. -/
def dsetdefault {α : Type} (d : Dict α) (k : String) (v : α) : Dict α :=
  match dget d k with
  | some _ => d
  | none => d ++ [(k, v)]

theorem dget_dset {α : Type} (d : Dict α) (k : String) (v : α) (q : String) :
    dget (dset d k v) q = if k = q then some v else dget d q := by
  induction d with
  | nil => simp [dset, dget]
  | cons p rest ih =>
    obtain ⟨a, b⟩ := p
    by_cases h1 : a = k
    · subst h1
      simp only [dset, if_pos rfl, dget]
      by_cases h2 : a = q <;> simp [h2]
    · simp only [dset, if_neg h1, dget]
      by_cases h2 : a = q
      · subst h2
        have hk : ¬ k = a := fun h => h1 h.symm
        simp [hk]
      · simp [h2, ih]

theorem dget_append {α : Type} (d₁ d₂ : Dict α) (k : String) :
    dget (d₁ ++ d₂) k =
      match dget d₁ k with
      | some v => some v
      | none => dget d₂ k := by
  induction d₁ with
  | nil => simp [dget]
  | cons p rest ih =>
    obtain ⟨k', v⟩ := p
    by_cases h : k' = k <;> simp [dget, h, ih]

theorem dget_dsetdefault {α : Type} (d : Dict α) (k : String) (v : α) (k' : String) :
    dget (dsetdefault d k v) k' =
      match dget d k' with
      | some w => some w
      | none => if k = k' then some v else none := by
  unfold dsetdefault
  cases hd : dget d k with
  | some w =>
    cases hd' : dget d k' with
    | some w' => simp
    | none =>
      by_cases hk : k = k'
      · subst hk; rw [hd] at hd'; cases hd'
      · simp [hk]
  | none =>
    rw [dget_append]
    cases hd' : dget d k' with
    | some w' => simp
    | none => by_cases hk : k = k' <;> simp [hk, dget]

/-- `setdefault` never changes an existing binding. -/
theorem dget_dsetdefault_preserve {α : Type} {d : Dict α} {k' : String} {w : α}
    (h : dget d k' = some w) (k : String) (v : α) :
    dget (dsetdefault d k v) k' = some w := by
  rw [dget_dsetdefault, h]

/-- After `setdefault`, the key is bound. -/
theorem dget_dsetdefault_isSome {α : Type} (d : Dict α) (k : String) (v : α) :
    (dget (dsetdefault d k v) k).isSome := by
  rw [dget_dsetdefault]
  cases h : dget d k with
  | some w => simp
  | none => simp

/-- Decidable equality for `Except`, used by the concrete witnesses. -/
instance {e a : Type} [DecidableEq e] [DecidableEq a] : DecidableEq (Except e a) := fun x y =>
  match x, y with
  | .error u, .error v =>
    if h : u = v then isTrue (by rw [h]) else isFalse (by intro hh; cases hh; exact h rfl)
  | .error _, .ok _ => isFalse (by intro hh; cases hh)
  | .ok _, .error _ => isFalse (by intro hh; cases hh)
  | .ok u, .ok v =>
    if h : u = v then isTrue (by rw [h]) else isFalse (by intro hh; cases hh; exact h rfl)

/-! ### ASCII string helpers used by the module -/

/-- The characters removed from bindings of `\s` in Python's `re` for ASCII
text: space, tab, newline, carriage return, vertical tab, form feed. -/
def isPySpace (c : Char) : Bool :=
  c = ' ' || c = '\t' || c = '\n' || c = '\r' || c = '\x0b' || c = '\x0c'

/-- Python `str.lower` on ASCII text. -/
def pyLower (l : List Char) : List Char := l.map Char.toLower

/-- Python `str.strip("/")`: drop `'/'` characters from both ends. -/
def trimSlashes (l : List Char) : List Char :=
  ((l.dropWhile (fun c => c = '/')).reverse.dropWhile (fun c => c = '/')).reverse

/-! ### `url.replace("://www.", "://")`

Python `str.replace` scans left to right replacing non-overlapping
occurrences of the pattern. -/

def replWWW : List Char → List Char
  | ':' :: '/' :: '/' :: 'w' :: 'w' :: 'w' :: '.' :: rest =>
    ':' :: '/' :: '/' :: replWWW rest
  | c :: rest => c :: replWWW rest
  | [] => []

/-- `url.replace("://www.", "://")` as used throughout `sources.py`. -/
def stripWWW (s : String) : String := ⟨replWWW s.data⟩

/-! ### The base-URL pattern `^^(https?|ftp)://[^\s/$.?#].[^\s]*$` (re.I)

`__url_regex` in `sources.py`.  `re.match` anchors at the start; `$` matches
at the very end or just before one final newline; `.` matches anything but a
newline. -/

/-- Case-insensitive literal prefix; returns the remainder on success. -/
def ciDropPre : List Char → List Char → Option (List Char)
  | [], rest => some rest
  | _ :: _, [] => none
  | p :: ps, c :: cs =>
    if c.toLower = p.toLower then ciDropPre ps cs else none

/-- Matches `[^\s]*$` where `$` may sit just before one final newline. -/
def nonSpaceTail (l : List Char) : Bool :=
  match l.getLast? with
  | some '\n' => l.dropLast.all (fun c => !isPySpace c)
  | _ => l.all (fun c => !isPySpace c)

/-- Matches `[^\s/$.?#].[^\s]*$` against the part after the scheme. -/
def urlRegexCore (rest : List Char) : Bool :=
  match rest with
  | c1 :: c2 :: r2 =>
    !isPySpace c1 && !(c1 = '/' || c1 = '$' || c1 = '.' || c1 = '?' || c1 = '#')
      && !(c2 = '\n') && nonSpaceTail r2
  | _ => false

/-- `__url_regex.match(url)` as a Boolean. -/
def urlRegexMatch (s : String) : Bool :=
  match ciDropPre "https://".data s.data with
  | some rest => urlRegexCore rest
  | none =>
    match ciDropPre "http://".data s.data with
    | some rest => urlRegexCore rest
    | none =>
      match ciDropPre "ftp://".data s.data with
      | some rest => urlRegexCore rest
      | none => false

/-! ### `urllib.parse.urlparse(url).hostname`

Model of the CPython parser, restricted to what `hostname` depends on:
tab/CR/LF characters are removed anywhere in the URL; a scheme is split off
at the first `:` when the part before it is a letter followed by
letters/digits/`+`/`-`/`.`; the netloc is the run after a leading `//` up to
the first `/`, `?` or `#`; the hostname is the netloc after the last `@`,
up to the first `:` (or between brackets for the IPv6 form), lowercased;
an empty hostname is reported as `None`. -/

def urlUnsafeDrop (l : List Char) : List Char :=
  l.filter (fun c => !(c = '\t' || c = '\r' || c = '\n'))

/-- Split at the first `':'`, if any. -/
def findColonSplit : List Char → Option (List Char × List Char)
  | [] => none
  | c :: rest =>
    if c = ':' then some ([], rest)
    else
      match findColonSplit rest with
      | some (pre, post) => some (c :: pre, post)
      | none => none

def isSchemeChar (c : Char) : Bool :=
  c.isAlpha || c.isDigit || c = '+' || c = '-' || c = '.'

def validScheme : List Char → Bool
  | [] => false
  | c :: rest => c.isAlpha && rest.all isSchemeChar

/-- The URL with its scheme removed, when it has one. -/
def afterScheme (l : List Char) : List Char :=
  match findColonSplit l with
  | some (pre, post) => if validScheme pre then post else l
  | none => l

def isNetlocEnd (c : Char) : Bool := c = '/' || c = '?' || c = '#'

def netlocOf (l : List Char) : List Char :=
  match afterScheme l with
  | a :: b :: rest =>
    if a = '/' ∧ b = '/' then rest.takeWhile (fun c => !isNetlocEnd c) else []
  | _ => []

/-- The part of the netloc after its last `'@'` (the whole netloc if none). -/
def afterLastAt (l : List Char) : List Char :=
  (l.reverse.takeWhile (fun c => !(c = '@'))).reverse

/-- CPython `_hostinfo`: bracketed IPv6 form, else strip the port. -/
def hostPortion (l : List Char) : List Char :=
  if (afterLastAt l).contains '[' then
    (((afterLastAt l).dropWhile (fun c => !(c = '['))).drop 1).takeWhile
      (fun c => !(c = ']'))
  else
    (afterLastAt l).takeWhile (fun c => !(c = ':'))

def pyHostnameChars (l : List Char) : Option (List Char) :=
  if (pyLower (hostPortion (netlocOf (urlUnsafeDrop l)))).isEmpty then none
  else some (pyLower (hostPortion (netlocOf (urlUnsafeDrop l))))

/-- `urlparse(s).hostname`. -/
def pyHostname (s : String) : Option String :=
  (pyHostnameChars s.data).map (fun l => ⟨l⟩)

/-! ### Paths

Only what the module uses: `Path.name` (the part after the last `/`) and
`Path.parts` (the components).  A path whose name is empty would make the
Python guard `path.name[0]` raise; such paths are treated as skipped here
(no claim involves them). -/

def baseName (p : String) : String :=
  ⟨(p.data.reverse.takeWhile (fun c => !(c = '/'))).reverse⟩

def splitSlash (l : List Char) : List (List Char) :=
  l.foldr
    (fun c acc =>
      match acc with
      | h :: t => if c = '/' then [] :: h :: t else (c :: h) :: t
      | [] => [[c]])
    [[]]

def pathParts (p : String) : List String := (splitSlash p.data).map (fun l => ⟨l⟩)

/-- The guard of `__add_crawlers_from_path`:
`path.name.startswith("_") or not path.name[0].isalnum()`. -/
def skipPathName (nm : String) : Bool :=
  match nm.data with
  | [] => true
  | c :: _ => c = '_' || !c.isAlphanum

/-! ### Handler classes and descriptors

A loaded module is a list of the `Crawler` subclasses found among its
top-level symbols, in `dir(module)` order.  A class is embedded by the
attributes `sources.py` inspects: the template marker, the declared base
URLs (already coerced to a list, as by `[urls] if isinstance(urls, str)`),
presence/callability of the two required methods, the disabled flag and
reason (`None` is modelled as `""`, both are falsy in the `or` the code
uses), and whether the three optional operations are overridden relative to
the base class (which is what `__can_do` computes). -/

structure PyClass where
  name : String
  is_template : Bool
  base_url : List String
  has_read_novel_info : Bool
  read_novel_info_callable : Bool
  has_download_chapter_body : Bool
  download_chapter_body_callable : Bool
  is_disabled : Bool
  disable_reason : String
  overrides_login : Bool
  overrides_logout : Bool
  overrides_search : Bool
deriving DecidableEq

/-- The metadata `__import_crawlers` attaches to an accepted handler type. -/
structure Desc where
  name : String
  base_url : List String
  language : String
  file_path : String
  can_login : Bool
  can_logout : Bool
  can_search : Bool
deriving DecidableEq

/-- `str(url).lower().strip("/") + "/"`. -/
def normUrl (u : String) : String := ⟨trimSlashes (pyLower u.data) ++ ['/']⟩

/-- Keep-first deduplication, standing in for `list(set(xs))` (whose order
CPython leaves unspecified; every property proved here is independent of the
order of this list). -/
def dedupKeepFirst : List String → List String
  | [] => []
  | x :: rest => x :: (dedupKeepFirst rest).filter (fun y => !(y = x))

/-- `list(set([str(url).lower().strip("/") + "/" for url in urls]))`. -/
def normUrls (c : PyClass) : List String := dedupKeepFirst (c.base_url.map normUrl)

/-- `crawler.disable_reason or 'Crawler is disabled'`. -/
def disabledReasonOf (c : PyClass) : String :=
  if c.disable_reason = "" then "Crawler is disabled" else c.disable_reason

/-- `__update_rejected(url, reason)`. -/
def update_rejected (rej : Dict String) (url reason : String) : Dict String :=
  let no_www := stripWWW url
  let rej := dsetdefault rej url reason
  let rej := dsetdefault rej no_www reason
  let rej :=
    match pyHostname url with
    | some h => dsetdefault rej h reason
    | none => rej
  match pyHostname no_www with
  | some h => dsetdefault rej h reason
  | none => rej

def rejectAll (rej : Dict String) (urls : List String) (reason : String) : Dict String :=
  urls.foldl (fun r u => update_rejected r u reason) rej

def mkDesc (path lang : String) (c : PyClass) (urls : List String) : Desc :=
  { name := c.name, base_url := urls, language := lang, file_path := path,
    can_login := c.overrides_login, can_logout := c.overrides_logout,
    can_search := c.overrides_search }


/-- The errors `__import_crawlers` can raise (all `LNException`s). -/
inductive LoadErr where
  | invalidPath : LoadErr
  | invalidBaseUrl (url path : String) : LoadErr
  | methodMissing (method path : String) : LoadErr
  | methodNotCallable (method path : String) : LoadErr
deriving DecidableEq

/-- The module-level mutable state of `sources.py` that the loader touches:
`crawler_list`, `rejected_sources`, `__cache_crawlers`, `template_list`. -/
structure SrcState where
  crawler_list : Dict Desc
  rejected_sources : Dict String
  cacheCrawlers : Dict (List Desc)
  templates : List PyClass
deriving DecidableEq

/-- The rejection update a disabled class performs before being accepted. -/
def disabledStep (c : PyClass) (st : SrcState) : SrcState :=
  if c.is_disabled then
    { st with rejected_sources :=
        rejectAll st.rejected_sources (normUrls c) (disabledReasonOf c) }
  else st

/-- The per-class loop of `__import_crawlers` (lines 287–326): template
classes are collected, classes with no base URL are skipped, a malformed
normalized URL or missing/uncallable required method raises (leaving the
already-performed rejection updates in place), disabled classes register
their URLs as rejected, and surviving classes yield a descriptor. -/
def importLoop (path lang : String) : List PyClass → SrcState → SrcState × Except LoadErr (List Desc)
  | [], st => (st, .ok [])
  | c :: rest, st =>
    if c.is_template then
      importLoop path lang rest { st with templates := c :: st.templates }
    else
      let urls := normUrls c
      if urls.isEmpty then importLoop path lang rest st
      else
        match urls.find? (fun u => !urlRegexMatch u) with
        | some u => (st, .error (.invalidBaseUrl u path))
        | none =>
          if !c.has_read_novel_info then
            (st, .error (.methodMissing "read_novel_info" path))
          else if !c.read_novel_info_callable then
            (st, .error (.methodNotCallable "read_novel_info" path))
          else if !c.has_download_chapter_body then
            (st, .error (.methodMissing "download_chapter_body" path))
          else if !c.download_chapter_body_callable then
            (st, .error (.methodNotCallable "download_chapter_body" path))
          else
            let res := importLoop path lang rest (disabledStep c st)
            (res.1, res.2.map (fun ds => mkDesc path lang c urls :: ds))

/-- `language_codes`-driven tag: scan the path parts innermost-first. -/
def langOf (codes : List String) (path : String) : String :=
  ((pathParts path).reverse.find? (fun part => codes.contains part)).getD ""

/-- A handler file: `none` models a file whose execution raises (caught and
treated as "no handlers"), `some m` a module exposing the classes `m`. -/
abbrev PyFS := Dict (Option (List PyClass))

/-- `__import_crawlers(file_path, no_cache)`: serve the cache unless
`no_cache`; missing file raises; failed module execution yields `[]`
without caching; otherwise run the class loop and cache on success unless
`no_cache`. -/
def importCrawlers (codes : List String) (fs : PyFS) (st : SrcState)
    (path : String) (noCache : Bool) : SrcState × Except LoadErr (List Desc) :=
  match (if noCache then none else dget st.cacheCrawlers path) with
  | some ds => (st, .ok ds)
  | none =>
    match dget fs path with
    | none => (st, .error .invalidPath)
    | some none => (st, .ok [])
    | some (some m) =>
      match importLoop path (langOf codes path) m st with
      | (st1, .error e) => (st1, .error e)
      | (st1, .ok ds) =>
        if noCache then (st1, .ok ds)
        else ({ st1 with cacheCrawlers := dset st1.cacheCrawlers path ds }, .ok ds)

/-- Registration of the four key variants of one base URL
(`__add_crawlers_from_path` lines 351–360). -/
def registerKeys (cl : Dict Desc) (d : Desc) (url : String) : Dict Desc :=
  let no_www := stripWWW url
  let cl := dset cl url d
  let cl := dset cl no_www d
  let cl :=
    match pyHostname url with
    | some h => dset cl h d
    | none => cl
  match pyHostname no_www with
  | some h => dset cl h d
  | none => cl

def registerDesc (cl : Dict Desc) (d : Desc) : Dict Desc :=
  d.base_url.foldl (fun cl url => registerKeys cl d url) cl

/-- `__add_crawlers_from_path` for a file path: underscore/non-alphanumeric
names are skipped, missing paths are skipped with a warning, and any
exception from the import leaves the dispatch table untouched (the
rejection updates performed before the failure survive, being module
state). -/
def add_crawlers_from_file (codes : List String) (fs : PyFS) (st : SrcState)
    (path : String) (noCache : Bool) : SrcState :=
  if skipPathName (baseName path) then st
  else if (dget fs path).isNone then st
  else
    match importCrawlers codes fs st path noCache with
    | (st1, .ok ds) => { st1 with crawler_list := ds.foldl registerDesc st1.crawler_list }
    | (st1, .error _) => st1

/-! ### `prepare_crawler`

The resolver (lines 404–439), without the ad-hoc-file branch (which only
reloads state before the same checks; the theorems below quantify over the
state, covering any state that branch can produce) and without the final
instantiation (external to this module). -/

inductive PrepErr where
  | invalidHostname : PrepErr
  | rejected (reason : String) : PrepErr
  | notFound (hostname : String) : PrepErr
deriving DecidableEq

def prepare_crawler (crawler_list : Dict Desc) (rejected_sources : Dict String)
    (url : String) : Except PrepErr Desc :=
  let no_www := stripWWW url
  match pyHostname url, pyHostname no_www with
  | some host, some nwh =>
    match dget rejected_sources url with
    | some reason => .error (.rejected reason)
    | none =>
      match (((dget crawler_list url).orElse
                (fun _ => dget crawler_list host)).orElse
                (fun _ => dget crawler_list no_www)).orElse
                (fun _ => dget crawler_list nwh) with
      | some c => .ok c
      | none => .error (.notFound host)
  | _, _ => .error .invalidHostname

/-! ### The catalog index and the batch downloader

`_index.json` content: `v` (sync timestamp), `app.version`, `supported`,
`rejected`, `crawlers` (absent key modelled as `none`).  File contents are
abstracted to `Nat`; the user-writable file tree is a `Dict Nat` keyed by
relative path and the bundled tree a list of relative paths (only existence
is ever tested there). -/

structure SourceInfo where
  version : Int
  file_path : String
  url : String
deriving DecidableEq

structure IndexData where
  v : Int
  appVersion : String
  supported : List String
  rejected : Dict String
  crawlers : Option (Dict SourceInfo)
deriving DecidableEq

/-- `__load_latest_index`: `fetch` is the decoded remote catalog, `none`
when downloading/decompressing/decoding fails.  Returns
`(latest, current)` or the fatal "Could not fetch sources index" error.
On success the current catalog adopts the remote one wholesale when it has
no `crawlers` key, then `v`/`app`/`supported`/`rejected` are overwritten
and the index persisted; on failure with a usable current catalog the
latest is the current one, unchanged. -/
def load_latest_index (fetch : Option IndexData) (now : Int) (cur : IndexData) :
    Except Unit (IndexData × IndexData) :=
  match fetch with
  | some latest =>
    let cur1 := if cur.crawlers.isNone then latest else cur
    .ok (latest,
      { cur1 with v := now, appVersion := latest.appVersion,
                  supported := latest.supported, rejected := latest.rejected })
  | none =>
    if cur.crawlers.isNone then .error () else .ok (cur, cur)

/-- State threaded through `__download_sources`: the `crawlers` map of the
current index, the user-writable file tree, and how many times the current
index has been persisted (`__save_current_index` calls). -/
structure DlState where
  crawlers : Dict SourceInfo
  userFiles : Dict Nat
  indexSaves : Nat
deriving DecidableEq

/-- `has_new_version or not (user_file or local_file)` (lines 204–209). -/
def downloadNeeded (current : Dict SourceInfo) (userFiles : Dict Nat)
    (localPaths : List String) (sid : String) (latestEntry : SourceInfo) : Bool :=
  let hasNew :=
    match dget current sid with
    | none => true
    | some cur => cur.version < latestEntry.version
  let userFile := (dget userFiles latestEntry.file_path).isSome
  let localFile := localPaths.contains latestEntry.file_path
  hasNew || !(userFile || localFile)

/-- The scheduling loop: every latest entry overwrites the current metadata,
and the entries needing a download are collected in order. -/
def schedulePhase (userFiles : Dict Nat) (localPaths : List String)
    (latest current : Dict SourceInfo) : Dict SourceInfo × List (String × SourceInfo) :=
  latest.foldl
    (fun acc p =>
      let need := downloadNeeded acc.1 userFiles localPaths p.1 p.2
      (dset acc.1 p.1 p.2, if need then acc.2 ++ [p] else acc.2))
    (current, [])

/-- Ids present in `current` but absent from `latest` are removed first. -/
def pruneCurrent (latest current : Dict SourceInfo) : Dict SourceInfo :=
  current.filter (fun p => (dget latest p.1).isSome)

/-- `__save_source_data`: write the payload (temp file then rename, whose
net effect on the tree is one write), update the current metadata, persist
the index.  A missing latest entry raises before any mutation; the caller
catches it, so the state is unchanged. -/
def save_source_data (latest : Dict SourceInfo) (sid : String) (data : Nat)
    (st : DlState) : DlState :=
  match dget latest sid with
  | none => st
  | some le =>
    { crawlers := dset st.crawlers sid le,
      userFiles := dset st.userFiles le.file_path data,
      indexSaves := st.indexSaves + 1 }

/-- The result loop: a failed future is skipped, a successful one is saved. -/
def resolvePhase (latest : Dict SourceInfo) (futures : List (String × Option Nat))
    (st : DlState) : DlState :=
  futures.foldl
    (fun st p =>
      match p.2 with
      | none => st
      | some data => save_source_data latest p.1 data st)
    st

/-- `__download_sources`: prune, schedule (one fetch per entry needing it,
keyed by the entry's download URL), then resolve the batch. -/
def download_sources (latest : Dict SourceInfo) (localPaths : List String)
    (results : String → Option Nat) (current : Dict SourceInfo)
    (userFiles : Dict Nat) (saves : Nat) : DlState :=
  let pruned := pruneCurrent latest current
  let step := schedulePhase userFiles localPaths latest pruned
  let futures := step.2.map (fun p => (p.1, results p.2.url))
  resolvePhase latest futures
    { crawlers := step.1, userFiles := userFiles, indexSaves := saves }

/-! ### Helper lemmas about the rejection registry and the import loop -/

theorem dget_dsetdefault_preserve_isSome {α : Type} {d : Dict α} {k' : String}
    (h : (dget d k').isSome) (k : String) (v : α) :
    (dget (dsetdefault d k v) k').isSome := by
  obtain ⟨w, hw⟩ := Option.isSome_iff_exists.mp h
  exact Option.isSome_iff_exists.mpr ⟨w, dget_dsetdefault_preserve hw k v⟩

theorem update_rejected_preserve {rej : Dict String} {k : String} {w : String}
    (h : dget rej k = some w) (u r : String) :
    dget (update_rejected rej u r) k = some w := by
  unfold update_rejected
  have h1 := dget_dsetdefault_preserve h u r
  have h2 := dget_dsetdefault_preserve h1 (stripWWW u) r
  cases hh : pyHostname u with
  | none =>
    cases hh2 : pyHostname (stripWWW u) with
    | none => simpa [hh, hh2] using h2
    | some y => simpa [hh, hh2] using dget_dsetdefault_preserve h2 y r
  | some x =>
    have h3 := dget_dsetdefault_preserve h2 x r
    cases hh2 : pyHostname (stripWWW u) with
    | none => simpa [hh, hh2] using h3
    | some y => simpa [hh, hh2] using dget_dsetdefault_preserve h3 y r

theorem update_rejected_preserve_isSome {rej : Dict String} {k : String}
    (h : (dget rej k).isSome) (u r : String) :
    (dget (update_rejected rej u r) k).isSome := by
  obtain ⟨w, hw⟩ := Option.isSome_iff_exists.mp h
  exact Option.isSome_iff_exists.mpr ⟨w, update_rejected_preserve hw u r⟩

/-- `__update_rejected` binds all four variants of its URL. -/
theorem update_rejected_self (rej : Dict String) (u r : String) :
    (dget (update_rejected rej u r) u).isSome ∧
    (dget (update_rejected rej u r) (stripWWW u)).isSome ∧
    (∀ h, pyHostname u = some h → (dget (update_rejected rej u r) h).isSome) ∧
    (∀ h, pyHostname (stripWWW u) = some h → (dget (update_rejected rej u r) h).isSome) := by
  unfold update_rejected
  have h1 : (dget (dsetdefault rej u r) u).isSome := dget_dsetdefault_isSome rej u r
  have h2 := dget_dsetdefault_preserve_isSome h1 (stripWWW u) r
  have h2' : (dget (dsetdefault (dsetdefault rej u r) (stripWWW u) r) (stripWWW u)).isSome :=
    dget_dsetdefault_isSome _ _ _
  cases hh : pyHostname u with
  | none =>
    cases hh2 : pyHostname (stripWWW u) with
    | none => simp only [hh, hh2]; exact ⟨h2, h2', by simp, by simp⟩
    | some y =>
      simp only [hh, hh2]
      refine ⟨dget_dsetdefault_preserve_isSome h2 y r,
              dget_dsetdefault_preserve_isSome h2' y r, by simp, ?_⟩
      intro h hy
      cases hy
      exact dget_dsetdefault_isSome _ _ _
  | some x =>
    have h3 := dget_dsetdefault_preserve_isSome h2 x r
    have h3' := dget_dsetdefault_preserve_isSome h2' x r
    have hx : (dget (dsetdefault (dsetdefault (dsetdefault rej u r) (stripWWW u) r) x r) x).isSome :=
      dget_dsetdefault_isSome _ _ _
    cases hh2 : pyHostname (stripWWW u) with
    | none =>
      simp only [hh, hh2]
      refine ⟨h3, h3', ?_, by simp⟩
      intro h hxx
      cases hxx
      exact hx
    | some y =>
      simp only [hh, hh2]
      refine ⟨dget_dsetdefault_preserve_isSome h3 y r,
              dget_dsetdefault_preserve_isSome h3' y r, ?_, ?_⟩
      · intro h hxx
        cases hxx
        exact dget_dsetdefault_preserve_isSome hx y r
      · intro h hy
        cases hy
        exact dget_dsetdefault_isSome _ _ _

theorem rejectAll_preserve {rej : Dict String} {k w : String}
    (h : dget rej k = some w) (urls : List String) (r : String) :
    dget (rejectAll rej urls r) k = some w := by
  induction urls generalizing rej with
  | nil => simpa [rejectAll] using h
  | cons x rest ih =>
    simp only [rejectAll, List.foldl_cons]
    exact ih (update_rejected_preserve h x r)

theorem rejectAll_preserve_isSome {rej : Dict String} {k : String}
    (h : (dget rej k).isSome) (urls : List String) (r : String) :
    (dget (rejectAll rej urls r) k).isSome := by
  obtain ⟨w, hw⟩ := Option.isSome_iff_exists.mp h
  exact Option.isSome_iff_exists.mpr ⟨w, rejectAll_preserve hw urls r⟩

/-- After rejecting a list of URLs, each member's four variants are bound. -/
theorem rejectAll_mem {urls : List String} {u : String} (hu : u ∈ urls)
    (rej : Dict String) (r : String) :
    (dget (rejectAll rej urls r) u).isSome ∧
    (dget (rejectAll rej urls r) (stripWWW u)).isSome ∧
    (∀ h, pyHostname u = some h → (dget (rejectAll rej urls r) h).isSome) ∧
    (∀ h, pyHostname (stripWWW u) = some h → (dget (rejectAll rej urls r) h).isSome) := by
  induction urls generalizing rej with
  | nil => cases hu
  | cons x rest ih =>
    simp only [rejectAll, List.foldl_cons]
    rcases List.mem_cons.mp hu with rfl | hmem
    · obtain ⟨s1, s2, s3, s4⟩ := update_rejected_self rej u r
      exact ⟨rejectAll_preserve_isSome s1 rest r,
             rejectAll_preserve_isSome s2 rest r,
             fun h hh => rejectAll_preserve_isSome (s3 h hh) rest r,
             fun h hh => rejectAll_preserve_isSome (s4 h hh) rest r⟩
    · exact ih hmem _

theorem disabledStep_crawler_list (c : PyClass) (st : SrcState) :
    (disabledStep c st).crawler_list = st.crawler_list := by
  unfold disabledStep; split <;> rfl

theorem disabledStep_cacheCrawlers (c : PyClass) (st : SrcState) :
    (disabledStep c st).cacheCrawlers = st.cacheCrawlers := by
  unfold disabledStep; split <;> rfl

theorem disabledStep_rejected_preserve {st : SrcState} {k w : String}
    (c : PyClass) (h : dget st.rejected_sources k = some w) :
    dget (disabledStep c st).rejected_sources k = some w := by
  unfold disabledStep
  split
  · exact rejectAll_preserve h _ _
  · exact h

/-- The class loop never touches the dispatch table or the descriptor cache. -/
theorem importLoop_frame (p lg : String) (m : List PyClass) (st : SrcState) :
    (importLoop p lg m st).1.crawler_list = st.crawler_list ∧
    (importLoop p lg m st).1.cacheCrawlers = st.cacheCrawlers := by
  induction m generalizing st with
  | nil => simp [importLoop]
  | cons c rest ih =>
    simp only [importLoop]
    split
    · exact ih _
    · split
      · exact ih _
      · split
        · simp
        · split
          · simp
          · split
            · simp
            · split
              · simp
              · split
                · simp
                · obtain ⟨h1, h2⟩ := ih (disabledStep c st)
                  exact ⟨h1.trans (disabledStep_crawler_list c st),
                         h2.trans (disabledStep_cacheCrawlers c st)⟩

/-- The class loop never removes a rejection entry (it only uses `setdefault`). -/
theorem importLoop_rejected_preserve {rej : SrcState} {k w : String}
    (p lg : String) (m : List PyClass)
    (h : dget rej.rejected_sources k = some w) :
    dget (importLoop p lg m rej).1.rejected_sources k = some w := by
  induction m generalizing rej with
  | nil => simpa [importLoop] using h
  | cons c rest ih =>
    simp only [importLoop]
    split
    · exact ih h
    · split
      · exact ih h
      · split
        · simpa using h
        · split
          · simpa using h
          · split
            · simpa using h
            · split
              · simpa using h
              · split
                · simpa using h
                · exact ih (disabledStep_rejected_preserve c h)

theorem importLoop_rejected_preserve_isSome {rej : SrcState} {k : String}
    (p lg : String) (m : List PyClass)
    (h : (dget rej.rejected_sources k).isSome) :
    (dget (importLoop p lg m rej).1.rejected_sources k).isSome := by
  obtain ⟨w, hw⟩ := Option.isSome_iff_exists.mp h
  exact Option.isSome_iff_exists.mpr ⟨w, importLoop_rejected_preserve p lg m hw⟩

/-- Decomposition of the class loop over a concatenation. -/
theorem importLoop_append (p lg : String) (xs ys : List PyClass) (st : SrcState) :
    importLoop p lg (xs ++ ys) st =
      match importLoop p lg xs st with
      | (st1, .error e) => (st1, .error e)
      | (st1, .ok ds) =>
        match importLoop p lg ys st1 with
        | (st2, .error e) => (st2, .error e)
        | (st2, .ok ds2) => (st2, .ok (ds ++ ds2)) := by
  induction xs generalizing st with
  | nil =>
    simp only [List.nil_append, importLoop]
    rcases h : importLoop p lg ys st with ⟨st2, res⟩
    cases res <;> simp
  | cons c rest ih =>
    simp only [List.cons_append, importLoop]
    split
    · exact ih _
    · split
      · exact ih _
      · split
        · simp
        · split
          · simp
          · split
            · simp
            · split
              · simp
              · split
                · simp
                · rw [show rest.append ys = rest ++ ys from rfl, ih (disabledStep c st)]
                  rcases h1 : importLoop p lg rest (disabledStep c st) with ⟨st1, res1⟩
                  cases res1 with
                  | error e => simp [Except.map]
                  | ok ds =>
                    rcases h2 : importLoop p lg ys st1 with ⟨st2, res2⟩
                    cases res2 <;> simp [h2, Except.map]

/-- The import result (success/failure and the descriptors) depends only on
the module's classes, never on the registry state. -/
theorem importLoop_result_state_indep (p lg : String) (m : List PyClass)
    (st st' : SrcState) :
    (importLoop p lg m st).2 = (importLoop p lg m st').2 := by
  induction m generalizing st st' with
  | nil => simp [importLoop]
  | cons c rest ih =>
    simp only [importLoop]
    split
    · exact ih _ _
    · split
      · exact ih _ _
      · split
        · simp
        · split
          · simp
          · split
            · simp
            · split
              · simp
              · split
                · simp
                · rw [ih (disabledStep c st) (disabledStep c st')]

theorem importCrawlers_rejected_preserve {st : SrcState} {k w : String}
    (codes : List String) (fs : PyFS) (path : String) (noCache : Bool)
    (h : dget st.rejected_sources k = some w) :
    dget (importCrawlers codes fs st path noCache).1.rejected_sources k = some w := by
  unfold importCrawlers
  cases hcc : (if noCache = true then none else dget st.cacheCrawlers path) with
  | some ds => simpa using h
  | none =>
    cases hfs : dget fs path with
    | none => simpa using h
    | some mo =>
      cases mo with
      | none => simpa using h
      | some m =>
        rcases hil : importLoop path (langOf codes path) m st with ⟨st1, res⟩
        have hp := importLoop_rejected_preserve path (langOf codes path) m h
        rw [hil] at hp
        cases res with
        | error e => simpa [hil] using hp
        | ok ds =>
          simp only [hil]
          split <;> simpa using hp

theorem add_crawlers_rejected_preserve {st : SrcState} {k w : String}
    (codes : List String) (fs : PyFS) (path : String) (noCache : Bool)
    (h : dget st.rejected_sources k = some w) :
    dget (add_crawlers_from_file codes fs st path noCache).rejected_sources k = some w := by
  unfold add_crawlers_from_file
  split
  · exact h
  · split
    · exact h
    · split
      · rename_i st1 ds heq
        have hp := importCrawlers_rejected_preserve codes fs path noCache h
        rw [heq] at hp
        exact hp
      · rename_i st1 e heq
        have hp := importCrawlers_rejected_preserve codes fs path noCache h
        rw [heq] at hp
        exact hp

/-! ### Sample data used by concrete witnesses -/

def sampleDesc : Desc :=
  { name := "SampleCrawler", base_url := ["http://a.com/"], language := "en",
    file_path := "sources/en/sample.py",
    can_login := false, can_logout := false, can_search := false }

/-! ### C1 -/

/-- C1: for an input URL whose own and `www`-stripped forms both yield a
hostname and that is not a rejection key, `prepare_crawler` probes the
dispatch table in the order exact URL, hostname, `www`-stripped URL,
`www`-stripped hostname, returns the first mapped handler, and fails with a
not-found error naming the hostname when all four keys are unmapped. -/
theorem C1_lookup_order (cl : Dict Desc) (rej : Dict String) (url host nwh : String)
    (hh : pyHostname url = some host)
    (hnh : pyHostname (stripWWW url) = some nwh)
    (hrej : dget rej url = none) :
    (∀ c, dget cl url = some c → prepare_crawler cl rej url = .ok c) ∧
    (dget cl url = none → ∀ c, dget cl host = some c →
      prepare_crawler cl rej url = .ok c) ∧
    (dget cl url = none → dget cl host = none →
      ∀ c, dget cl (stripWWW url) = some c → prepare_crawler cl rej url = .ok c) ∧
    (dget cl url = none → dget cl host = none → dget cl (stripWWW url) = none →
      ∀ c, dget cl nwh = some c → prepare_crawler cl rej url = .ok c) ∧
    (dget cl url = none → dget cl host = none → dget cl (stripWWW url) = none →
      dget cl nwh = none →
      prepare_crawler cl rej url = .error (.notFound host)) := by
  unfold prepare_crawler
  refine ⟨?_, ?_, ?_, ?_, ?_⟩ <;> intros <;>
    simp_all [Option.orElse]

theorem C1_witness :
    prepare_crawler [("a.com", sampleDesc)] [] "http://a.com/" = .ok sampleDesc :=
  ((C1_lookup_order [("a.com", sampleDesc)] [] "http://a.com/" "a.com" "a.com"
      (by decide) (by decide) rfl).2.1) (by decide) sampleDesc (by decide)

/-! ### C2 -/

/-- C2 counterexample: the rejection registry holds hostname keys as well as
URLs, and the hostname-validity check precedes the rejection check. For the
input `"a.com"`, which is a rejection key but yields no hostname,
`prepare_crawler` fails with the invalid-hostname error, not with a
rejected-source error — even though the key carries a stored reason and a
handler is registered under the same key. -/
theorem C2_counterexample :
    dget [("a.com", "Has aggressive ads")] "a.com" = some "Has aggressive ads" ∧
    prepare_crawler [("a.com", sampleDesc)] [("a.com", "Has aggressive ads")] "a.com"
      = .error .invalidHostname ∧
    (Except.error (PrepErr.rejected "Has aggressive ads") : Except PrepErr Desc)
      ≠ .error .invalidHostname := by
  exact ⟨by decide, by decide, by decide⟩

/-- C2 (amended): provided the URL and its `www`-stripped variant both yield
hostnames, a literal rejection-registry hit fails with the rejected-source
error carrying the stored reason, whatever the dispatch table holds; when
the literal URL is not a key, no rejected-source error is possible (only
the exact URL is consulted); `__update_rejected` never overwrites an
existing reason; and registering a handler file never removes or changes an
existing rejection entry. -/
theorem C2_rejection_exact_url (st : SrcState) (url : String) :
    (∀ host nwh reason, pyHostname url = some host →
        pyHostname (stripWWW url) = some nwh →
        dget st.rejected_sources url = some reason →
        prepare_crawler st.crawler_list st.rejected_sources url
          = .error (.rejected reason)) ∧
    (dget st.rejected_sources url = none →
      ∀ r, prepare_crawler st.crawler_list st.rejected_sources url
          ≠ .error (.rejected r)) ∧
    (∀ u' r' reason, dget st.rejected_sources url = some reason →
      dget (update_rejected st.rejected_sources u' r') url = some reason) ∧
    (∀ codes fs path noCache reason,
      dget st.rejected_sources url = some reason →
      dget (add_crawlers_from_file codes fs st path noCache).rejected_sources url
        = some reason) := by
  refine ⟨?_, ?_, ?_, ?_⟩
  · intro host nwh reason hh hnh hr
    unfold prepare_crawler
    simp [hh, hnh, hr]
  · intro hr r
    unfold prepare_crawler
    cases hh : pyHostname url with
    | none => simp [hh]
    | some host =>
      cases hnh : pyHostname (stripWWW url) with
      | none => simp [hh, hnh]
      | some nwh =>
        simp only [hh, hnh, hr]
        split <;> simp
  · intro u' r' reason hr
    exact update_rejected_preserve hr u' r'
  · intro codes fs path noCache reason hr
    exact add_crawlers_rejected_preserve codes fs path noCache hr

theorem C2_witness :
    prepare_crawler [("http://a.com/", sampleDesc)] [("http://a.com/", "Paywalled")]
      "http://a.com/" = .error (.rejected "Paywalled") :=
  (C2_rejection_exact_url
      ⟨[("http://a.com/", sampleDesc)], [("http://a.com/", "Paywalled")], [], []⟩
      "http://a.com/").1 "a.com" "a.com" "Paywalled" (by decide) (by decide) (by decide)

/-! ### C7 -/

/-- C7 counterexample: a current catalog whose `crawlers` section is present
but empty has no entries at all, yet a failed remote fetch is not fatal:
`__load_latest_index` degrades to `latest = current` because it tests for the
presence of the `crawlers` key, not for entries. -/
theorem C7_counterexample :
    (IndexData.mk 5 "3.2.0" [] [] (some [])).crawlers = some [] ∧
    load_latest_index none 1700000000 (IndexData.mk 5 "3.2.0" [] [] (some [])) =
      .ok (IndexData.mk 5 "3.2.0" [] [] (some []),
           IndexData.mk 5 "3.2.0" [] [] (some [])) := by
  exact ⟨rfl, rfl⟩

/-- C7 (amended): when the remote catalog fetch fails, a current catalog
that has a `crawlers` section — even an empty one — only logs the failure
and treats the latest catalog as equal to the unchanged current catalog,
while a current catalog with no `crawlers` section at all makes the sync
fail with the fatal error. -/
theorem C7_offline_fallback (cur : IndexData) (now : Int) :
    (∀ m, cur.crawlers = some m → load_latest_index none now cur = .ok (cur, cur)) ∧
    (cur.crawlers = none → load_latest_index none now cur = .error ()) := by
  constructor
  · intro m hm
    unfold load_latest_index
    simp [hm]
  · intro hm
    unfold load_latest_index
    simp [hm]

theorem C7_witness :
    load_latest_index none 42
      (IndexData.mk 7 "3.2.0" [] [] (some [("A", SourceInfo.mk 1 "p.py" "u")])) =
      .ok (IndexData.mk 7 "3.2.0" [] [] (some [("A", SourceInfo.mk 1 "p.py" "u")]),
           IndexData.mk 7 "3.2.0" [] [] (some [("A", SourceInfo.mk 1 "p.py" "u")])) :=
  (C7_offline_fallback _ 42).1 _ rfl

/-! ### C9 -/

def c9Path : String := "sources/en/c9.py"

def c9ClassB : PyClass :=
  { name := "CNineCrawler", is_template := false, base_url := ["http://c9.com/"],
    has_read_novel_info := true, read_novel_info_callable := true,
    has_download_chapter_body := true, download_chapter_body_callable := true,
    is_disabled := false, disable_reason := "",
    overrides_login := false, overrides_logout := false, overrides_search := true }

/-- Descriptor from the file's earlier contents (`can_search = false`). -/
def c9DescA : Desc :=
  { name := "CNineCrawler", base_url := ["http://c9.com/"], language := "en",
    file_path := c9Path, can_login := false, can_logout := false, can_search := false }

/-- Descriptor the file's current contents produce (`can_search = true`). -/
def c9DescB : Desc :=
  { name := "CNineCrawler", base_url := ["http://c9.com/"], language := "en",
    file_path := c9Path, can_login := false, can_logout := false, can_search := true }

def c9FS : PyFS := [(c9Path, some [c9ClassB])]

def c9St : SrcState := ⟨[], [], [(c9Path, [c9DescA])], []⟩

/-- C9 counterexample: a forced reload returns the file's current
descriptors, but the stale cache entry survives it, so a later non-forced
load of the same path still serves the descriptors cached before the forced
reload. -/
theorem C9_counterexample :
    (importCrawlers ["en"] c9FS c9St c9Path true).2 = .ok [c9DescB] ∧
    (importCrawlers ["en"] c9FS
        (importCrawlers ["en"] c9FS c9St c9Path true).1 c9Path false).2
      = .ok [c9DescA] ∧
    c9DescA ≠ c9DescB := by
  exact ⟨by decide, by decide, by decide⟩

/-- C9 (amended): a load with `no_cache=True` bypasses the per-path
descriptor cache — its result is computed from the file's current contents,
independent of anything cached — but it does not invalidate the cache:
the cache is left exactly as it was, and a later non-forced load of a
cached path still returns the previously cached descriptors unchanged. -/
theorem C9_force_bypasses_cache (codes : List String) (fs : PyFS) (st : SrcState)
    (path : String) :
    (∀ cache2,
        (importCrawlers codes fs { st with cacheCrawlers := cache2 } path true).2 =
          (importCrawlers codes fs st path true).2) ∧
    (importCrawlers codes fs st path true).1.cacheCrawlers = st.cacheCrawlers ∧
    (∀ ds0, dget st.cacheCrawlers path = some ds0 →
        importCrawlers codes fs st path false = (st, .ok ds0)) := by
  refine ⟨?_, ?_, ?_⟩
  · intro cache2
    unfold importCrawlers
    simp only [if_true]
    cases hfs : dget fs path with
    | none => simp
    | some mo =>
      cases mo with
      | none => simp
      | some m =>
        simp only
        have hind := importLoop_result_state_indep path (langOf codes path) m
          { st with cacheCrawlers := cache2 } st
        rcases h1 : importLoop path (langOf codes path) m
            { st with cacheCrawlers := cache2 } with ⟨stA, resA⟩
        rcases h2 : importLoop path (langOf codes path) m st with ⟨stB, resB⟩
        rw [h1, h2] at hind
        simp only at hind
        subst hind
        cases resA <;> simp
  · unfold importCrawlers
    simp only [if_true]
    cases hfs : dget fs path with
    | none => simp
    | some mo =>
      cases mo with
      | none => simp
      | some m =>
        simp only
        rcases h1 : importLoop path (langOf codes path) m st with ⟨stA, resA⟩
        have hframe := (importLoop_frame path (langOf codes path) m st).2
        rw [h1] at hframe
        cases resA <;> simpa using hframe
  · intro ds0 h
    unfold importCrawlers
    simp [h]

theorem C9_witness :
    importCrawlers ["en"] c9FS c9St c9Path false = (c9St, .ok [c9DescA]) :=
  (C9_force_bypasses_cache ["en"] c9FS c9St c9Path).2.2 [c9DescA] (by decide)

/-! ### Validation failures (C3, C4, C10) -/

/-- One of the two required operations is missing or not callable. -/
def methodContractBroken (c : PyClass) : Prop :=
  c.has_read_novel_info = false ∨ c.read_novel_info_callable = false ∨
  c.has_download_chapter_body = false ∨ c.download_chapter_body_callable = false

/-- A non-template class with base URLs that makes `__import_crawlers` raise:
some normalized URL fails the pattern, or the method contract is broken. -/
def classFailsValidation (c : PyClass) : Prop :=
  c.is_template = false ∧ normUrls c ≠ [] ∧
  ((∃ u ∈ normUrls c, urlRegexMatch u = false) ∨ methodContractBroken c)

/-- A failing class at the head of the loop raises before mutating anything. -/
theorem importLoop_cons_error_of_bad {F : PyClass} (hF : classFailsValidation F)
    (p lg : String) (zs : List PyClass) (st : SrcState) :
    ∃ e, importLoop p lg (F :: zs) st = (st, .error e) := by
  obtain ⟨htpl, hne, hbad⟩ := hF
  simp only [importLoop, htpl, Bool.false_eq_true, if_false]
  have hne' : (normUrls F).isEmpty = false := by
    cases h : normUrls F with
    | nil => exact absurd h hne
    | cons a l => simp [List.isEmpty]
  simp only [hne', Bool.false_eq_true, if_false]
  cases hfind : (normUrls F).find? (fun u => !urlRegexMatch u) with
  | some u => exact ⟨.invalidBaseUrl u p, rfl⟩
  | none =>
    have hall : ∀ u ∈ normUrls F, urlRegexMatch u = true := by
      intro u hu
      have := List.find?_eq_none.mp hfind u hu
      simpa using this
    rcases hbad with ⟨u, hu, hbadu⟩ | hmeth
    · rw [hall u hu] at hbadu; cases hbadu
    · split
      · exact ⟨_, rfl⟩
      · split
        · exact ⟨_, rfl⟩
        · split
          · exact ⟨_, rfl⟩
          · split
            · exact ⟨_, rfl⟩
            · rcases hmeth with h | h | h | h <;> simp_all

/-- Any failing class anywhere in the module makes the whole import raise. -/
theorem importLoop_error_of_bad {C : PyClass} {m : List PyClass}
    (hC : C ∈ m) (hF : classFailsValidation C) (p lg : String) (st : SrcState) :
    ∃ e, (importLoop p lg m st).2 = .error e := by
  induction m generalizing st with
  | nil => cases hC
  | cons c rest ih =>
    rcases List.mem_cons.mp hC with rfl | hmem
    · obtain ⟨e, he⟩ := importLoop_cons_error_of_bad hF p lg rest st
      exact ⟨e, by rw [he]⟩
    · simp only [importLoop]
      split
      · exact ih hmem _
      · split
        · exact ih hmem _
        · split
          · exact ⟨_, rfl⟩
          · split
            · exact ⟨_, rfl⟩
            · split
              · exact ⟨_, rfl⟩
              · split
                · exact ⟨_, rfl⟩
                · split
                  · exact ⟨_, rfl⟩
                  · obtain ⟨e, he⟩ := ih hmem (disabledStep c st)
                    rcases hr : importLoop p lg rest (disabledStep c st) with ⟨st1, res⟩
                    rw [hr] at he
                    simp only at he
                    subst he
                    exact ⟨e, by simp [hr, Except.map]⟩

/-- `__import_crawlers` never touches the dispatch table. -/
theorem importCrawlers_crawler_list_frame (codes : List String) (fs : PyFS)
    (st : SrcState) (path : String) (noCache : Bool) :
    (importCrawlers codes fs st path noCache).1.crawler_list = st.crawler_list := by
  unfold importCrawlers
  cases hcc : (if noCache = true then none else dget st.cacheCrawlers path) with
  | some ds => rfl
  | none =>
    cases hfs : dget fs path with
    | none => rfl
    | some mo =>
      cases mo with
      | none => rfl
      | some m =>
        rcases hil : importLoop path (langOf codes path) m st with ⟨st1, res⟩
        have hframe := (importLoop_frame path (langOf codes path) m st).1
        rw [hil] at hframe
        simp only [hil]
        cases res with
        | error e => simpa using hframe
        | ok ds => cases noCache <;> simpa using hframe

/-- A failing class makes `__import_crawlers` itself fail (when the file is
present and not served from the cache). -/
theorem importCrawlers_error_of_bad {C : PyClass} {m : List PyClass}
    (codes : List String) (fs : PyFS) (st : SrcState) (path : String) (noCache : Bool)
    (hfs : dget fs path = some (some m))
    (hcache : noCache = true ∨ dget st.cacheCrawlers path = none)
    (hC : C ∈ m) (hF : classFailsValidation C) :
    ∃ e, (importCrawlers codes fs st path noCache).2 = .error e := by
  have hcc : (if noCache = true then none else dget st.cacheCrawlers path) = none := by
    rcases hcache with h | h
    · simp [h]
    · cases noCache <;> simp [h]
  unfold importCrawlers
  rw [hcc, hfs]
  obtain ⟨e, he⟩ := importLoop_error_of_bad hC hF path (langOf codes path) st
  rcases hil : importLoop path (langOf codes path) m st with ⟨st1, res⟩
  rw [hil] at he
  simp only at he
  subst he
  exact ⟨e, by simp [hil]⟩

/-- A failed import registers nothing in the dispatch table. -/
theorem add_crawlers_unchanged_of_error {codes : List String} {fs : PyFS}
    {st : SrcState} {path : String} {noCache : Bool} {e : LoadErr}
    (he : (importCrawlers codes fs st path noCache).2 = .error e) :
    (add_crawlers_from_file codes fs st path noCache).crawler_list = st.crawler_list := by
  unfold add_crawlers_from_file
  split
  · rfl
  · split
    · rfl
    · rcases himp : importCrawlers codes fs st path noCache with ⟨st1, res⟩
      rw [himp] at he
      simp only at he
      subst he
      simp only [himp]
      have := importCrawlers_crawler_list_frame codes fs st path noCache
      rw [himp] at this
      exact this

/-! ### C3 -/

/-- C3: a handler file containing a non-template class one of whose
normalized base URLs fails the URL pattern makes the whole file import fail
with a validation error, and the dispatch table receives no handler from
that file (the descriptor cache holding no stale entry for the path). -/
theorem C3_invalid_url_rejects_file (codes : List String) (fs : PyFS) (st : SrcState)
    (path : String) (noCache : Bool) (m : List PyClass) (C : PyClass) (u : String)
    (hfs : dget fs path = some (some m))
    (hcache : noCache = true ∨ dget st.cacheCrawlers path = none)
    (hC : C ∈ m) (htpl : C.is_template = false)
    (hu : u ∈ normUrls C) (hbad : urlRegexMatch u = false) :
    (∃ e, (importCrawlers codes fs st path noCache).2 = .error e) ∧
    (add_crawlers_from_file codes fs st path noCache).crawler_list = st.crawler_list := by
  have hne : normUrls C ≠ [] := by
    intro h; rw [h] at hu; cases hu
  have hF : classFailsValidation C := ⟨htpl, hne, .inl ⟨u, hu, hbad⟩⟩
  obtain ⟨e, he⟩ := importCrawlers_error_of_bad codes fs st path noCache hfs hcache hC hF
  exact ⟨⟨e, he⟩, add_crawlers_unchanged_of_error he⟩

def c3Class : PyClass :=
  { name := "CThreeCrawler", is_template := false, base_url := ["bad url"],
    has_read_novel_info := true, read_novel_info_callable := true,
    has_download_chapter_body := true, download_chapter_body_callable := true,
    is_disabled := false, disable_reason := "",
    overrides_login := false, overrides_logout := false, overrides_search := false }

def c3FS : PyFS := [("sources/en/c3.py", some [c3Class])]

theorem C3_witness :
    (∃ e, (importCrawlers ["en"] c3FS ⟨[], [], [], []⟩ "sources/en/c3.py" false).2
        = .error e) ∧
    (add_crawlers_from_file ["en"] c3FS ⟨[], [], [], []⟩ "sources/en/c3.py" false).crawler_list
      = [] :=
  C3_invalid_url_rejects_file ["en"] c3FS ⟨[], [], [], []⟩ "sources/en/c3.py" false
    [c3Class] c3Class "bad url/" (by decide) (.inr (by decide)) (by decide) (by decide)
    (by decide) (by decide)

/-! ### C4 -/

/-- C4: a handler file containing a non-template class whose base URLs are
all valid (and nonempty — a class with no base URL is silently skipped) but
whose `read_novel_info` or `download_chapter_body` member is missing or not
callable makes the whole file import fail with a validation error, and no
handler from that file is registered. -/
theorem C4_method_contract_rejects_file (codes : List String) (fs : PyFS) (st : SrcState)
    (path : String) (noCache : Bool) (m : List PyClass) (C : PyClass)
    (hfs : dget fs path = some (some m))
    (hcache : noCache = true ∨ dget st.cacheCrawlers path = none)
    (hC : C ∈ m) (htpl : C.is_template = false)
    (hne : normUrls C ≠ [])
    (hvalid : ∀ u ∈ normUrls C, urlRegexMatch u = true)
    (hmeth : methodContractBroken C) :
    (∃ e, (importCrawlers codes fs st path noCache).2 = .error e) ∧
    (add_crawlers_from_file codes fs st path noCache).crawler_list = st.crawler_list := by
  have hF : classFailsValidation C := ⟨htpl, hne, .inr hmeth⟩
  obtain ⟨e, he⟩ := importCrawlers_error_of_bad codes fs st path noCache hfs hcache hC hF
  exact ⟨⟨e, he⟩, add_crawlers_unchanged_of_error he⟩

def c4Class : PyClass :=
  { name := "CFourCrawler", is_template := false, base_url := ["http://c4.com/"],
    has_read_novel_info := false, read_novel_info_callable := false,
    has_download_chapter_body := true, download_chapter_body_callable := true,
    is_disabled := false, disable_reason := "",
    overrides_login := false, overrides_logout := false, overrides_search := false }

def c4FS : PyFS := [("sources/en/c4.py", some [c4Class])]

theorem C4_witness :
    (∃ e, (importCrawlers ["en"] c4FS ⟨[], [], [], []⟩ "sources/en/c4.py" false).2
        = .error e) ∧
    (add_crawlers_from_file ["en"] c4FS ⟨[], [], [], []⟩ "sources/en/c4.py" false).crawler_list
      = [] :=
  C4_method_contract_rejects_file ["en"] c4FS ⟨[], [], [], []⟩ "sources/en/c4.py" false
    [c4Class] c4Class (by decide) (.inr (by decide)) (by decide) (by decide)
    (by decide) (by decide) (.inl (by decide))

/-! ### C10 -/

/-- When a disabled class heads a successfully imported class list, the
rejection entries for all four variants of each of its base URLs are present
in the loop's final state. -/
theorem importLoop_cons_ok_disabled {p lg : String} {D : PyClass} {ys : List PyClass}
    {stA stB : SrcState} {dsB : List Desc}
    (h : importLoop p lg (D :: ys) stA = (stB, .ok dsB))
    (hDtpl : D.is_template = false) (hDne : normUrls D ≠ [])
    (hDdis : D.is_disabled = true) :
    ∀ u ∈ normUrls D,
      (dget stB.rejected_sources u).isSome ∧
      (dget stB.rejected_sources (stripWWW u)).isSome ∧
      (∀ hh, pyHostname u = some hh → (dget stB.rejected_sources hh).isSome) ∧
      (∀ hh, pyHostname (stripWWW u) = some hh → (dget stB.rejected_sources hh).isSome) := by
  intro u hu
  have hne' : (normUrls D).isEmpty = false := by
    cases hx : normUrls D with
    | nil => exact absurd hx hDne
    | cons a l => simp [List.isEmpty]
  simp only [importLoop, hDtpl, Bool.false_eq_true, if_false, hne'] at h
  split at h
  · simp at h
  · split at h
    · simp at h
    · split at h
      · simp at h
      · split at h
        · simp at h
        · split at h
          · simp at h
          · have hfst := congrArg Prod.fst h
            simp only at hfst
            have hds : (disabledStep D stA).rejected_sources =
                rejectAll stA.rejected_sources (normUrls D) (disabledReasonOf D) := by
              unfold disabledStep
              rw [hDdis]
              simp
            obtain ⟨s1, s2, s3, s4⟩ :=
              rejectAll_mem hu stA.rejected_sources (disabledReasonOf D)
            rw [← hds] at s1 s2 s3 s4
            refine ⟨?_, ?_, ?_, ?_⟩
            · have hp := importLoop_rejected_preserve_isSome p lg ys s1
              rwa [hfst] at hp
            · have hp := importLoop_rejected_preserve_isSome p lg ys s2
              rwa [hfst] at hp
            · intro hh hhh
              have hp := importLoop_rejected_preserve_isSome p lg ys (s3 hh hhh)
              rwa [hfst] at hp
            · intro hh hhh
              have hp := importLoop_rejected_preserve_isSome p lg ys (s4 hh hhh)
              rwa [hfst] at hp

/-- C10: handler-file loading is not atomic with respect to the rejection
registry: when a disabled class is processed (successfully) before a class
that fails URL or required-method validation, the whole file import fails
and registers zero handlers, yet the rejection entries already added for the
disabled class's base URLs (all four variants of each) remain in the
registry. -/
theorem C10_rejections_survive_failed_load
    (codes : List String) (fs : PyFS) (st st2 : SrcState) (path : String)
    (noCache : Bool) (xs ys zs : List PyClass) (D F : PyClass) (ds1 : List Desc)
    (hfs : dget fs path = some (some (xs ++ D :: ys ++ F :: zs)))
    (hname : skipPathName (baseName path) = false)
    (hcache : noCache = true ∨ dget st.cacheCrawlers path = none)
    (hpre : importLoop path (langOf codes path) (xs ++ D :: ys) st = (st2, .ok ds1))
    (hDtpl : D.is_template = false) (hDne : normUrls D ≠ [])
    (hDdis : D.is_disabled = true)
    (hF : classFailsValidation F) :
    (∃ e, importLoop path (langOf codes path) (xs ++ D :: ys ++ F :: zs) st
        = (st2, .error e)) ∧
    add_crawlers_from_file codes fs st path noCache = st2 ∧
    st2.crawler_list = st.crawler_list ∧
    (∀ u, u ∈ normUrls D →
      (dget st2.rejected_sources u).isSome ∧
      (dget st2.rejected_sources (stripWWW u)).isSome ∧
      (∀ h, pyHostname u = some h → (dget st2.rejected_sources h).isSome) ∧
      (∀ h, pyHostname (stripWWW u) = some h → (dget st2.rejected_sources h).isSome)) := by
  obtain ⟨eF, heF⟩ := importLoop_cons_error_of_bad hF path (langOf codes path) zs st2
  have hassoc : xs ++ D :: ys ++ F :: zs = (xs ++ D :: ys) ++ (F :: zs) := by simp
  have hloop : importLoop path (langOf codes path) (xs ++ D :: ys ++ F :: zs) st
      = (st2, .error eF) := by
    rw [hassoc, importLoop_append, hpre]
    simp [heF]
  have hcc : (if noCache = true then none else dget st.cacheCrawlers path) = none := by
    rcases hcache with h | h
    · simp [h]
    · cases noCache <;> simp [h]
  have himp : importCrawlers codes fs st path noCache = (st2, .error eF) := by
    unfold importCrawlers
    rw [hcc, hfs]
    simp only []
    rw [hloop]
  have hadd : add_crawlers_from_file codes fs st path noCache = st2 := by
    unfold add_crawlers_from_file
    rw [hname]
    simp only [Bool.false_eq_true, if_false, hfs, Option.isNone_some, himp]
  have hframe := (importLoop_frame path (langOf codes path)
      (xs ++ D :: ys ++ F :: zs) st).1
  rw [hloop] at hframe
  refine ⟨⟨eF, hloop⟩, hadd, hframe, ?_⟩
  have hpre' := hpre
  rw [importLoop_append] at hpre'
  rcases hxs : importLoop path (langOf codes path) xs st with ⟨stA, resA⟩
  rw [hxs] at hpre'
  cases resA with
  | error e => simp at hpre'
  | ok dsA =>
    simp only [] at hpre'
    rcases hdys : importLoop path (langOf codes path) (D :: ys) stA with ⟨stB, resB⟩
    rw [hdys] at hpre'
    cases resB with
    | error e => simp at hpre'
    | ok dsB =>
      have hstB : stB = st2 := by
        have := congrArg Prod.fst hpre'
        simpa using this
      subst hstB
      exact importLoop_cons_ok_disabled hdys hDtpl hDne hDdis

def c10Path : String := "sources/en/c10.py"

def c10D : PyClass :=
  { name := "CTenDisabled", is_template := false, base_url := ["http://d10.com/"],
    has_read_novel_info := true, read_novel_info_callable := true,
    has_download_chapter_body := true, download_chapter_body_callable := true,
    is_disabled := true, disable_reason := "",
    overrides_login := false, overrides_logout := false, overrides_search := false }

def c10F : PyClass :=
  { name := "CTenFailing", is_template := false, base_url := ["no scheme here"],
    has_read_novel_info := true, read_novel_info_callable := true,
    has_download_chapter_body := true, download_chapter_body_callable := true,
    is_disabled := false, disable_reason := "",
    overrides_login := false, overrides_logout := false, overrides_search := false }

def c10FS : PyFS := [(c10Path, some [c10D, c10F])]

def c10DescD : Desc :=
  { name := "CTenDisabled", base_url := ["http://d10.com/"], language := "en",
    file_path := c10Path, can_login := false, can_logout := false, can_search := false }

/-- The registry state right after the disabled class was processed. -/
def c10St2 : SrcState :=
  ⟨[], [("http://d10.com/", "Crawler is disabled"), ("d10.com", "Crawler is disabled")],
   [], []⟩

theorem C10_witness :
    add_crawlers_from_file ["en"] c10FS ⟨[], [], [], []⟩ c10Path false = c10St2 ∧
    c10St2.crawler_list = [] ∧
    (dget c10St2.rejected_sources "http://d10.com/").isSome := by
  have h := C10_rejections_survive_failed_load ["en"] c10FS ⟨[], [], [], []⟩ c10St2
    c10Path false [] [] [] c10D c10F [c10DescD]
    (by decide) (by decide) (.inr (by decide)) (by decide) (by decide) (by decide)
    (by decide) ⟨by decide, by decide, .inl ⟨"no scheme here/", by decide, by decide⟩⟩
  exact ⟨h.2.1, h.2.2.1, (h.2.2.2 "http://d10.com/" (by decide)).1⟩

/-! ### Helper lemmas about the batch downloader (C5, C8) -/

theorem dget_filter {α : Type} (d : Dict α) (f : String → Bool) (k : String) :
    dget (d.filter (fun p => f p.1)) k = if f k then dget d k else none := by
  induction d with
  | nil => simp [dget]
  | cons p rest ih =>
    obtain ⟨a, b⟩ := p
    by_cases hfa : f a
    · rw [List.filter_cons_of_pos (by simpa using hfa)]
      by_cases hak : a = k
      · subst hak
        simp [dget, hfa]
      · simp only [dget, if_neg hak, ih]
    · rw [List.filter_cons_of_neg (by simpa using hfa)]
      by_cases hak : a = k
      · subst hak
        simp only [ih, hfa, Bool.false_eq_true, if_false]
      · simp only [dget, if_neg hak, ih]

theorem dget_of_mem_nodup {α : Type} {d : Dict α} {k : String} {v : α}
    (hmem : (k, v) ∈ d) (hnd : (d.map Prod.fst).Nodup) : dget d k = some v := by
  induction d with
  | nil => cases hmem
  | cons p rest ih =>
    obtain ⟨a, b⟩ := p
    rcases List.mem_cons.mp hmem with heq | hmem'
    · cases heq
      simp [dget]
    · have hka : a ≠ k := by
        intro hak
        subst hak
        have : a ∈ rest.map Prod.fst :=
          List.mem_map.mpr ⟨(a, v), hmem', rfl⟩
        simp only [List.map_cons, List.nodup_cons] at hnd
        exact hnd.1 this
      simp only [dget, if_neg hka]
      exact ih hmem' (by simpa using (List.nodup_cons.mp (by simpa using hnd)).2)

theorem dget_some_mem {α : Type} {d : Dict α} {k : String} {v : α}
    (h : dget d k = some v) : (k, v) ∈ d := by
  induction d with
  | nil => cases h
  | cons p rest ih =>
    obtain ⟨a, b⟩ := p
    by_cases hak : a = k
    · subst hak
      simp only [dget, if_pos rfl] at h
      cases h
      exact List.mem_cons_self _ _
    · simp only [dget, if_neg hak] at h
      exact List.mem_cons_of_mem _ (ih h)

/-- The scheduling decision depends on the current metadata only through the
entry under the scheduled id. -/
theorem downloadNeeded_congr {c1 c2 : Dict SourceInfo} {sid : String}
    (h : dget c1 sid = dget c2 sid) (uf : Dict Nat) (lp : List String)
    (e : SourceInfo) :
    downloadNeeded c1 uf lp sid e = downloadNeeded c2 uf lp sid e := by
  unfold downloadNeeded
  rw [h]

theorem schedulePhase_aux (uf : Dict Nat) (lp : List String)
    (l : List (String × SourceInfo)) :
    ∀ (cur cur0 : Dict SourceInfo) (acc : List (String × SourceInfo)),
    (∀ p ∈ l, dget cur p.1 = dget cur0 p.1) → (l.map Prod.fst).Nodup →
    (l.foldl
        (fun acc2 p =>
          let need := downloadNeeded acc2.1 uf lp p.1 p.2
          (dset acc2.1 p.1 p.2, if need then acc2.2 ++ [p] else acc2.2))
        (cur, acc)).2
      = acc ++ l.filter (fun p => downloadNeeded cur0 uf lp p.1 p.2) := by
  induction l with
  | nil => intro cur cur0 acc hinv hnd; simp
  | cons p rest ih =>
    intro cur cur0 acc hinv hnd
    obtain ⟨sid, e⟩ := p
    have hdec : downloadNeeded cur uf lp sid e = downloadNeeded cur0 uf lp sid e :=
      downloadNeeded_congr (hinv (sid, e) (List.mem_cons_self _ _)) uf lp e
    have hnd' : (rest.map Prod.fst).Nodup := (List.nodup_cons.mp (by simpa using hnd)).2
    have hnotin : sid ∉ rest.map Prod.fst := (List.nodup_cons.mp (by simpa using hnd)).1
    have hinv' : ∀ q ∈ rest, dget (dset cur sid e) q.1 = dget cur0 q.1 := by
      intro q hq
      rw [dget_dset]
      have hne : sid ≠ q.1 := by
        intro heq
        exact hnotin (List.mem_map.mpr ⟨q, hq, heq.symm⟩)
      rw [if_neg hne]
      exact hinv q (List.mem_cons_of_mem _ hq)
    simp only [List.foldl_cons]
    rw [ih (dset cur sid e) cur0 _ hinv' hnd']
    by_cases hneed : downloadNeeded cur0 uf lp sid e
    · rw [List.filter_cons_of_pos (by simpa using hneed)]
      simp [hdec, hneed]
    · rw [List.filter_cons_of_neg (by simpa using hneed)]
      have : downloadNeeded cur uf lp sid e = false := by
        rw [hdec]
        exact Bool.not_eq_true _ ▸ (by simpa using hneed)
      simp [this]

/-- The futures submitted by `__download_sources` are exactly the latest
entries whose `has_new_version or not (user_file or local_file)` test holds,
judged against the pre-loop current metadata. -/
theorem schedulePhase_sched (uf : Dict Nat) (lp : List String)
    (latest cur0 : Dict SourceInfo) (hnd : (latest.map Prod.fst).Nodup) :
    (schedulePhase uf lp latest cur0).2 =
      latest.filter (fun p => downloadNeeded cur0 uf lp p.1 p.2) := by
  unfold schedulePhase
  simpa using schedulePhase_aux uf lp latest cur0 cur0 [] (fun _ _ => rfl) hnd

theorem schedulePhase_fst (uf : Dict Nat) (lp : List String)
    (l : List (String × SourceInfo)) :
    ∀ (cur : Dict SourceInfo) (acc : List (String × SourceInfo)),
    (l.foldl
        (fun acc2 p =>
          let need := downloadNeeded acc2.1 uf lp p.1 p.2
          (dset acc2.1 p.1 p.2, if need then acc2.2 ++ [p] else acc2.2))
        (cur, acc)).1
      = l.foldl (fun c p => dset c p.1 p.2) cur := by
  induction l with
  | nil => intro cur acc; simp
  | cons p rest ih =>
    intro cur acc
    simp only [List.foldl_cons]
    split <;> exact ih _ _

theorem dget_foldl_dset_notmem {l : List (String × SourceInfo)} {k : String}
    (hk : k ∉ l.map Prod.fst) (cur : Dict SourceInfo) :
    dget (l.foldl (fun c p => dset c p.1 p.2) cur) k = dget cur k := by
  induction l generalizing cur with
  | nil => rfl
  | cons p rest ih =>
    simp only [List.map_cons, List.mem_cons] at hk
    push_neg at hk
    simp only [List.foldl_cons]
    rw [ih hk.2, dget_dset, if_neg (fun h => hk.1 h.symm)]

theorem dget_foldl_dset_mem {l : List (String × SourceInfo)} {k : String} {v : SourceInfo}
    (hmem : (k, v) ∈ l) (hnd : (l.map Prod.fst).Nodup) (cur : Dict SourceInfo) :
    dget (l.foldl (fun c p => dset c p.1 p.2) cur) k = some v := by
  induction l generalizing cur with
  | nil => cases hmem
  | cons p rest ih =>
    obtain ⟨a, b⟩ := p
    have hnd' : (rest.map Prod.fst).Nodup := (List.nodup_cons.mp (by simpa using hnd)).2
    have hnotin : a ∉ rest.map Prod.fst := (List.nodup_cons.mp (by simpa using hnd)).1
    rcases List.mem_cons.mp hmem with heq | hmem'
    · cases heq
      simp only [List.foldl_cons]
      rw [dget_foldl_dset_notmem hnotin, dget_dset, if_pos rfl]
    · simp only [List.foldl_cons]
      exact ih hmem' hnd' _

/-- After the scheduling loop, every latest entry's metadata is already
written into the current map (even entries whose download will fail). -/
theorem schedulePhase_crawlers_mem (uf : Dict Nat) (lp : List String)
    {latest : Dict SourceInfo} (cur0 : Dict SourceInfo) {k : String} {v : SourceInfo}
    (hmem : (k, v) ∈ latest) (hnd : (latest.map Prod.fst).Nodup) :
    dget (schedulePhase uf lp latest cur0).1 k = some v := by
  unfold schedulePhase
  rw [schedulePhase_fst]
  exact dget_foldl_dset_mem hmem hnd cur0

/-! ### C5 -/

/-- C5: an entry of the latest catalog is scheduled for download iff the
current catalog has no entry under its id or a lower version, or its file is
present neither in the user-writable tree nor in the bundled tree. -/
theorem C5_download_scheduling (latest current : Dict SourceInfo) (uf : Dict Nat)
    (lp : List String) (sid : String) (e : SourceInfo)
    (hnd : (latest.map Prod.fst).Nodup) :
    (sid, e) ∈ (schedulePhase uf lp latest (pruneCurrent latest current)).2 ↔
      (sid, e) ∈ latest ∧
        ((dget current sid = none ∨
            (∃ c, dget current sid = some c ∧ c.version < e.version)) ∨
          ¬((dget uf e.file_path).isSome ∨ lp.contains e.file_path)) := by
  rw [schedulePhase_sched uf lp latest (pruneCurrent latest current) hnd,
      List.mem_filter]
  constructor
  · rintro ⟨hmem, hneed⟩
    refine ⟨hmem, ?_⟩
    have hp : dget (pruneCurrent latest current) sid = dget current sid := by
      unfold pruneCurrent
      rw [dget_filter current (fun k => (dget latest k).isSome) sid]
      simp [dget_of_mem_nodup hmem hnd]
    unfold downloadNeeded at hneed
    rw [hp] at hneed
    cases hc : dget current sid with
    | none => exact .inl (.inl rfl)
    | some c =>
      rw [hc] at hneed
      simp only [Bool.or_eq_true, decide_eq_true_eq, Bool.not_eq_true,
        Bool.not_eq_true'] at hneed
      rcases hneed with hv | hfile
      · exact .inl (.inr ⟨c, rfl, hv⟩)
      · refine .inr ?_
        simp only [Bool.or_eq_false_iff] at hfile
        intro hcontra
        rcases hcontra with h1 | h2
        · rw [hfile.1] at h1; cases h1
        · rw [hfile.2] at h2; cases h2
  · rintro ⟨hmem, hcond⟩
    refine ⟨hmem, ?_⟩
    have hp : dget (pruneCurrent latest current) sid = dget current sid := by
      unfold pruneCurrent
      rw [dget_filter current (fun k => (dget latest k).isSome) sid]
      simp [dget_of_mem_nodup hmem hnd]
    unfold downloadNeeded
    rw [hp]
    rcases hcond with (hnone | ⟨c, hc, hv⟩) | hfile
    · rw [hnone]; simp
    · rw [hc]; simp [hv]
    · cases hc : dget current sid <;> simp_all

def c5eA : SourceInfo := ⟨1, "sources/en/a.py", "http://dl/a"⟩
def c5eB0 : SourceInfo := ⟨0, "sources/en/b.py", "http://dl/b"⟩
def c5eB2 : SourceInfo := ⟨2, "sources/en/b.py", "http://dl/b"⟩
def c5latest : Dict SourceInfo := [("A", c5eA), ("B", c5eB2)]
def c5current : Dict SourceInfo := [("A", c5eA), ("B", c5eB0)]
def c5uf : Dict Nat := [("sources/en/a.py", 7)]

theorem C5_witness :
    ("B", c5eB2) ∈ (schedulePhase c5uf [] c5latest (pruneCurrent c5latest c5current)).2 ∧
    (schedulePhase c5uf [] c5latest (pruneCurrent c5latest c5current)).2 = [("B", c5eB2)] :=
  ⟨(C5_download_scheduling c5latest c5current c5uf [] "B" c5eB2 (by decide)).mpr
      ⟨by decide, .inl (.inr ⟨c5eB0, by decide, by decide⟩)⟩,
   by decide⟩

/-! ### C8 -/

theorem resolvePhase_cons (latest : Dict SourceInfo) (p : String × Option Nat)
    (rest : List (String × Option Nat)) (st : DlState) :
    resolvePhase latest (p :: rest) st =
      resolvePhase latest rest
        (match p.2 with
         | none => st
         | some d => save_source_data latest p.1 d st) := by
  rfl

theorem resolvePhase_append (latest : Dict SourceInfo)
    (f1 f2 : List (String × Option Nat)) (st : DlState) :
    resolvePhase latest (f1 ++ f2) st =
      resolvePhase latest f2 (resolvePhase latest f1 st) := by
  unfold resolvePhase
  exact List.foldl_append ..

theorem resolvePhase_crawlers_skip (latest : Dict SourceInfo)
    {futs : List (String × Option Nat)} {k : String}
    (h : ∀ p ∈ futs, p.2 = none ∨ p.1 ≠ k) (st : DlState) :
    dget (resolvePhase latest futs st).crawlers k = dget st.crawlers k := by
  induction futs generalizing st with
  | nil => rfl
  | cons p rest ih =>
    obtain ⟨s, r⟩ := p
    rw [resolvePhase_cons]
    cases r with
    | none => exact ih (fun q hq => h q (List.mem_cons_of_mem _ hq)) st
    | some d =>
      have hs : s ≠ k := by
        rcases h (s, some d) (List.mem_cons_self _ _) with h1 | h2
        · exact absurd h1 (by simp)
        · exact h2
      rw [ih (fun q hq => h q (List.mem_cons_of_mem _ hq)) _]
      unfold save_source_data
      cases hle : dget latest s with
      | none => rfl
      | some le =>
        simp only
        rw [dget_dset, if_neg hs]

theorem resolvePhase_userFiles_skip (latest : Dict SourceInfo)
    {futs : List (String × Option Nat)} {q : String}
    (h : ∀ p ∈ futs, ∀ d, p.2 = some d → ∀ le, dget latest p.1 = some le →
      le.file_path ≠ q) (st : DlState) :
    dget (resolvePhase latest futs st).userFiles q = dget st.userFiles q := by
  induction futs generalizing st with
  | nil => rfl
  | cons p rest ih =>
    obtain ⟨s, r⟩ := p
    rw [resolvePhase_cons]
    cases r with
    | none => exact ih (fun x hx => h x (List.mem_cons_of_mem _ hx)) st
    | some d =>
      rw [ih (fun x hx => h x (List.mem_cons_of_mem _ hx)) _]
      unfold save_source_data
      cases hle : dget latest s with
      | none => rfl
      | some le =>
        simp only
        rw [dget_dset,
            if_neg (h (s, some d) (List.mem_cons_self _ _) d rfl le hle)]

theorem resolvePhase_saves (latest : Dict SourceInfo)
    (futs : List (String × Option Nat)) (st : DlState) :
    (resolvePhase latest futs st).indexSaves =
      st.indexSaves + futs.countP (fun p => p.2.isSome && (dget latest p.1).isSome) := by
  induction futs generalizing st with
  | nil => simp [resolvePhase]
  | cons p rest ih =>
    obtain ⟨s, r⟩ := p
    rw [resolvePhase_cons, List.countP_cons]
    cases r with
    | none =>
      rw [ih]
      simp
    | some d =>
      cases hle : dget latest s with
      | none =>
        unfold save_source_data
        rw [hle, ih]
        simp [hle]
      | some le =>
        unfold save_source_data
        rw [hle, ih]
        simp only [Option.isSome_some, Bool.true_and, hle, DlState.indexSaves,
          if_true, reduceIte]
        omega

/-- C8: in a download batch, failures are isolated.  Whatever the batch
shape: the current metadata of an entry whose fetch failed is nevertheless
already updated to the latest entry while its file is left untouched
(pointing at a version whose file was never written when it was absent
before); every succeeding scheduled entry has its payload written at its
path and its metadata committed; and the index is persisted once per
succeeding entry, the failure aborting nothing.  Entry ids and file paths
are assumed pairwise distinct, as in a real catalog. -/
theorem C8_batch_failure_isolation (latest current : Dict SourceInfo)
    (uf : Dict Nat) (lp : List String) (results : String → Option Nat)
    (saves : Nat) (sidF : String) (eF : SourceInfo)
    (hnd : (latest.map Prod.fst).Nodup)
    (hpaths : (latest.map (fun p => p.2.file_path)).Nodup)
    (hmemF : (sidF, eF) ∈ latest)
    (hresF : results eF.url = none) :
    dget (download_sources latest lp results current uf saves).crawlers sidF
      = some eF ∧
    dget (download_sources latest lp results current uf saves).userFiles eF.file_path
      = dget uf eF.file_path ∧
    (∀ s e d, (s, e) ∈ latest → results e.url = some d →
      downloadNeeded (pruneCurrent latest current) uf lp s e = true →
      dget (download_sources latest lp results current uf saves).userFiles e.file_path
        = some d ∧
      dget (download_sources latest lp results current uf saves).crawlers s
        = some e) ∧
    (download_sources latest lp results current uf saves).indexSaves =
      saves + (latest.filter (fun p =>
        downloadNeeded (pruneCurrent latest current) uf lp p.1 p.2
          && (results p.2.url).isSome)).length := by
  have hout : download_sources latest lp results current uf saves =
      resolvePhase latest
        ((schedulePhase uf lp latest (pruneCurrent latest current)).2.map
          (fun p => (p.1, results p.2.url)))
        { crawlers := (schedulePhase uf lp latest (pruneCurrent latest current)).1,
          userFiles := uf, indexSaves := saves } := rfl
  rw [hout]
  set pruned := pruneCurrent latest current with hpruned
  set sched := (schedulePhase uf lp latest pruned).2 with hsched2
  set cur1 := (schedulePhase uf lp latest pruned).1 with hcur1
  set futures := sched.map (fun p => (p.1, results p.2.url)) with hfut
  set st0 : DlState := { crawlers := cur1, userFiles := uf, indexSaves := saves }
    with hst0
  have hsched : sched = latest.filter (fun p => downloadNeeded pruned uf lp p.1 p.2) :=
    schedulePhase_sched uf lp latest pruned hnd
  have hsub : List.Sublist sched latest := hsched ▸ List.filter_sublist latest
  have hmem_sched : ∀ p ∈ sched, p ∈ latest := fun p hp => hsub.mem hp
  -- every futures element comes from one scheduled latest entry
  have hfchar : ∀ x ∈ futures, ∃ q ∈ sched, x = (q.1, results q.2.url) := by
    intro x hx
    obtain ⟨q, hq, hxq⟩ := List.mem_map.mp hx
    exact ⟨q, hq, hxq.symm⟩
  -- an entry of latest whose key is sidF is eF itself
  have hkeyF : ∀ q ∈ latest, q.1 = sidF → q = (sidF, eF) := by
    intro q hq hq1
    have h1 : dget latest q.1 = some q.2 := dget_of_mem_nodup (by
      cases q; exact hq) hnd
    have h2 : dget latest sidF = some eF := dget_of_mem_nodup hmemF hnd
    rw [hq1, h2] at h1
    cases q
    simp only at hq1
    subst hq1
    cases h1
    rfl
  refine ⟨?_, ?_, ?_, ?_⟩
  · -- failed entry: metadata updated by the scheduling loop, never overwritten
    rw [resolvePhase_crawlers_skip latest ?_ st0]
    · exact schedulePhase_crawlers_mem uf lp pruned hmemF hnd
    · intro p hp
      obtain ⟨q, hq, rfl⟩ := hfchar p hp
      by_cases hq1 : q.1 = sidF
      · left
        have := hkeyF q (hmem_sched q hq) hq1
        rw [this]
        exact hresF
      · right
        exact hq1
  · -- failed entry's file is never written
    rw [resolvePhase_userFiles_skip latest ?_ st0]
    · intro p hp d hpd le hle
      obtain ⟨q, hq, rfl⟩ := hfchar p hp
      have hqlat := hmem_sched q hq
      have hql : dget latest q.1 = some q.2 :=
        dget_of_mem_nodup (by cases q; exact hqlat) hnd
      rw [hql] at hle
      cases hle
      by_cases hq1 : q.1 = sidF
      · have := hkeyF q hqlat hq1
        rw [this] at hpd
        simp only at hpd
        rw [hresF] at hpd
        cases hpd
      · intro hpeq
        have := List.inj_on_of_nodup_map hpaths hqlat hmemF hpeq
        rw [this] at hq1
        exact hq1 rfl
  · -- every succeeding scheduled entry is committed and written
    intro s e d hm hr hneed
    have hse : (s, e) ∈ sched := by
      rw [hsched]
      exact List.mem_filter.mpr ⟨hm, hneed⟩
    have hfm : (s, some d) ∈ futures := by
      rw [hfut]
      have := List.mem_map_of_mem (fun p => (p.1, results p.2.url)) hse
      simpa [hr] using this
    obtain ⟨pre, post, hsplit⟩ := List.append_of_mem hfm
    have hndS : (sched.map Prod.fst).Nodup := (hsub.map Prod.fst).nodup hnd
    have hndF : (futures.map Prod.fst).Nodup := by
      rw [hfut, List.map_map]
      exact hndS
    have hnotpost : s ∉ post.map Prod.fst := by
      rw [hsplit] at hndF
      simp only [List.map_append, List.map_cons] at hndF
      have := (List.nodup_middle.mp hndF)
      have h2 := (List.nodup_cons.mp this).1
      intro hmem2
      exact h2 (List.mem_append.mpr (.inr hmem2))
    have hsl : dget latest s = some e := dget_of_mem_nodup hm hnd
    have hkeyS : ∀ q ∈ latest, q.1 = s → q = (s, e) := by
      intro q hq hq1
      have h1 : dget latest q.1 = some q.2 := dget_of_mem_nodup (by
        cases q; exact hq) hnd
      rw [hq1, hsl] at h1
      cases q
      simp only at hq1
      subst hq1
      cases h1
      rfl
    rw [hsplit, resolvePhase_append, resolvePhase_cons]
    simp only
    rw [save_source_data, hsl]
    simp only
    have hpostskip : ∀ p ∈ post, p ∈ futures := by
      intro p hp
      rw [hsplit]
      exact List.mem_append.mpr (.inr (List.mem_cons_of_mem _ hp))
    constructor
    · rw [resolvePhase_userFiles_skip latest ?_ _]
      · rw [dget_dset, if_pos rfl]
      · intro p hp d' hpd' le' hle'
        obtain ⟨q, hq, rfl⟩ := hfchar p (hpostskip p hp)
        have hqlat := hmem_sched q hq
        have hql : dget latest q.1 = some q.2 :=
          dget_of_mem_nodup (by cases q; exact hqlat) hnd
        rw [hql] at hle'
        cases hle'
        have hq1 : q.1 ≠ s := by
          intro heq
          exact hnotpost (heq ▸ List.mem_map.mpr ⟨(q.1, results q.2.url), hp, rfl⟩)
        intro hpeq
        have := List.inj_on_of_nodup_map hpaths hqlat hm hpeq
        rw [this] at hq1
        exact hq1 rfl
    · rw [resolvePhase_crawlers_skip latest ?_ _]
      · rw [dget_dset, if_pos rfl]
      · intro p hp
        right
        obtain ⟨q, hq, rfl⟩ := hfchar p (hpostskip p hp)
        intro heq
        exact hnotpost (heq ▸ List.mem_map.mpr ⟨(q.1, results q.2.url), hp, rfl⟩)
  · -- one index persist per succeeding entry
    rw [resolvePhase_saves]
    have h1 : futures.countP (fun p => p.2.isSome && (dget latest p.1).isSome) =
        sched.countP (fun q => (results q.2.url).isSome && (dget latest q.1).isSome) := by
      rw [hfut, List.countP_map]
      rfl
    have h2 : sched.countP (fun q => (results q.2.url).isSome && (dget latest q.1).isSome) =
        sched.countP (fun q => (results q.2.url).isSome) := by
      apply List.countP_congr
      intro q hq
      have hql : q ∈ latest := hmem_sched q hq
      have : dget latest q.1 = some q.2 := by
        cases q
        exact dget_of_mem_nodup hql hnd
      simp [this]
    have h3 : sched.countP (fun q => (results q.2.url).isSome) =
        latest.countP (fun q => (results q.2.url).isSome &&
          downloadNeeded pruned uf lp q.1 q.2) := by
      rw [hsched]
      exact List.countP_filter ..
    rw [h1, h2, h3, List.countP_eq_length_filter]
    have h4 : latest.filter (fun q => (results q.2.url).isSome &&
          downloadNeeded pruned uf lp q.1 q.2) =
        latest.filter (fun p => downloadNeeded pruned uf lp p.1 p.2 &&
          (results p.2.url).isSome) := by
      apply List.filter_congr
      intro q hq
      rw [Bool.and_comm]
    rw [h4]

def c8latest : Dict SourceInfo :=
  [("A", ⟨1, "pa", "ua"⟩), ("B", ⟨1, "pb", "ub"⟩), ("C", ⟨1, "pc", "uc"⟩),
   ("D", ⟨1, "pd", "ud"⟩), ("E", ⟨1, "pe", "ue"⟩)]

/-- One simulated network failure (entry C) among four successes. -/
def c8results : String → Option Nat := fun u =>
  if u = "uc" then none
  else if u = "ua" then some 10
  else if u = "ub" then some 11
  else if u = "ud" then some 13
  else if u = "ue" then some 14
  else none

theorem C8_witness :
    dget (download_sources c8latest [] c8results [] [] 0).crawlers "C"
      = some ⟨1, "pc", "uc"⟩ ∧
    dget (download_sources c8latest [] c8results [] [] 0).userFiles "pc" = none ∧
    dget (download_sources c8latest [] c8results [] [] 0).userFiles "pb" = some 11 ∧
    (download_sources c8latest [] c8results [] [] 0).indexSaves = 4 := by
  have h := C8_batch_failure_isolation c8latest [] [] [] c8results 0 "C" ⟨1, "pc", "uc"⟩
    (by decide) (by decide) (by decide) (by decide)
  refine ⟨h.1, ?_, ?_, ?_⟩
  · exact h.2.1.trans (by decide)
  · exact (h.2.2.1 "B" ⟨1, "pb", "ub"⟩ 11 (by decide) (by decide) (by decide)).1
  · exact h.2.2.2.trans (by decide)

/-! ### String lemmas for C6: appending a slash, and hostname shapes -/

theorem string_data_append (s t : String) : (s ++ t).data = s.data ++ t.data := rfl

theorem urlUnsafeDrop_append_slash (l : List Char) :
    urlUnsafeDrop (l ++ ['/']) = urlUnsafeDrop l ++ ['/'] := by
  unfold urlUnsafeDrop
  rw [List.filter_append]
  rfl

theorem findColonSplit_append_nc {c : Char} (hc : c ≠ ':') (l : List Char) :
    findColonSplit (l ++ [c]) =
      match findColonSplit l with
      | some (pre, post) => some (pre, post ++ [c])
      | none => none := by
  induction l with
  | nil =>
    simp only [List.nil_append, findColonSplit, if_neg hc]
  | cons a rest ih =>
    by_cases ha : a = ':'
    · subst ha
      simp [findColonSplit]
    · simp only [List.cons_append, findColonSplit, if_neg ha, List.append_eq]
      rw [ih]
      cases hr : findColonSplit rest with
      | none => simp
      | some pp => obtain ⟨pre, post⟩ := pp; simp

theorem afterScheme_append_slash (l : List Char) :
    afterScheme (l ++ ['/']) = afterScheme l ++ ['/'] := by
  unfold afterScheme
  rw [findColonSplit_append_nc (by decide) l]
  cases hf : findColonSplit l with
  | none => simp
  | some pp =>
    obtain ⟨pre, post⟩ := pp
    simp only
    by_cases hv : validScheme pre
    · simp [hv]
    · simp [hv]

theorem takeWhile_append_last {p : Char → Bool} {c : Char} (hc : p c = false)
    (l : List Char) : (l ++ [c]).takeWhile p = l.takeWhile p := by
  induction l with
  | nil => simp [List.takeWhile, hc]
  | cons a rest ih =>
    simp only [List.cons_append, List.takeWhile_cons]
    cases p a <;> simp_all

theorem netlocOf_append_slash (l : List Char) :
    netlocOf (l ++ ['/']) = netlocOf l := by
  unfold netlocOf
  rw [afterScheme_append_slash]
  cases has : afterScheme l with
  | nil => rfl
  | cons a rest1 =>
    cases rest1 with
    | nil =>
      simp only [List.cons_append, List.nil_append]
      split
      · rfl
      · rfl
    | cons b rest2 =>
      simp only [List.cons_append]
      split
      · exact takeWhile_append_last (by decide) rest2
      · rfl

theorem pyHostnameChars_append_slash (l : List Char) :
    pyHostnameChars (l ++ ['/']) = pyHostnameChars l := by
  unfold pyHostnameChars
  rw [urlUnsafeDrop_append_slash, netlocOf_append_slash]

theorem pyHostname_append_slash (s : String) :
    pyHostname (s ++ "/") = pyHostname s := by
  unfold pyHostname
  rw [string_data_append]
  have : ("/" : String).data = ['/'] := rfl
  rw [this, pyHostnameChars_append_slash]

theorem replWWW_cons_ne (c' : Char) (rest : List Char)
    (h : ∀ r1, c' = ':' → rest = '/' :: '/' :: 'w' :: 'w' :: 'w' :: '.' :: r1 → False) :
    replWWW (c' :: rest) = c' :: replWWW rest := by
  rw [replWWW.eq_def]
  split
  · rename_i r1 heq
    injection heq with h1 h2
    exact (h r1 h1 h2).elim
  · rename_i c2 rest2 hne heq
    injection heq with h1 h2
    subst h1
    subst h2
    rfl
  · rename_i heq
    cases heq

/-- Appending any character other than `'.'` cannot create a new occurrence
of `"://www."`, so `replace` commutes with the append. -/
theorem replWWW_append_ne_dot {c : Char} (hc : c ≠ '.') (l : List Char) :
    replWWW (l ++ [c]) = replWWW l ++ [c] := by
  induction l using replWWW.induct with
  | case1 rest ih =>
    show replWWW (':' :: '/' :: '/' :: 'w' :: 'w' :: 'w' :: '.' :: (rest ++ [c])) = _
    rw [replWWW, ih]
    rfl
  | case2 c' rest hne ih =>
    show replWWW (c' :: (rest ++ [c])) = _
    have hnm : ∀ r1, c' = ':' → rest ++ [c] = '/' :: '/' :: 'w' :: 'w' :: 'w' :: '.' :: r1 →
        False := by
      intro r1 hc' heq
      cases r1 using List.reverseRecOn with
      | nil =>
        have : c = '.' := by
          have hlast := congrArg List.getLast? heq
          simp at hlast
          exact hlast
        exact hc this
      | append_singleton q d =>
        have heq2 : rest ++ [c] = ('/' :: '/' :: 'w' :: 'w' :: 'w' :: '.' :: q) ++ [d] := by
          simpa using heq
        obtain ⟨hr, _⟩ := List.append_inj' heq2 rfl
        exact hne q hc' hr
    rw [replWWW_cons_ne _ _ hnm, ih, replWWW_cons_ne _ _ hne]
    rfl
  | case3 =>
    simp [replWWW]

theorem stripWWW_append_slash (s : String) :
    stripWWW (s ++ "/") = stripWWW s ++ "/" := by
  unfold stripWWW
  apply String.ext
  show replWWW ((s ++ "/").data) = (⟨replWWW s.data⟩ ++ ("/" : String)).data
  rw [string_data_append, string_data_append]
  have h1 : ("/" : String).data = ['/'] := rfl
  rw [h1, replWWW_append_ne_dot (by decide)]

theorem toLower_eq_slash {c : Char} (h : c.toLower = '/') : c = '/' := by
  simp only [Char.toLower] at h
  split at h
  · rename_i hc
    exfalso
    obtain ⟨n, hn⟩ : ∃ n, c.toNat = n := ⟨_, rfl⟩
    rw [hn] at h hc
    obtain ⟨h1, h2⟩ := hc
    interval_cases n <;> exact absurd h (by decide)
  · exact h

theorem mem_afterLastAt {x : Char} {l : List Char} (h : x ∈ afterLastAt l) : x ∈ l := by
  unfold afterLastAt at h
  rw [List.mem_reverse] at h
  have := (List.takeWhile_sublist _).mem h
  exact List.mem_reverse.mp this

theorem mem_hostPortion {x : Char} {l : List Char} (h : x ∈ hostPortion l) : x ∈ l := by
  unfold hostPortion at h
  split at h
  · have h1 := (List.takeWhile_sublist _).mem h
    have h2 := (List.drop_sublist _ _).mem h1
    have h3 := (List.dropWhile_sublist _).mem h2
    exact mem_afterLastAt h3
  · exact mem_afterLastAt ((List.takeWhile_sublist _).mem h)

theorem mem_netlocOf_ne_slash {x : Char} {l : List Char} (h : x ∈ netlocOf l) :
    x ≠ '/' := by
  unfold netlocOf at h
  split at h
  · split at h
    · have := List.mem_takeWhile_imp h
      simp only [Bool.not_eq_eq_eq_not, Bool.not_true, isNetlocEnd] at this
      intro hx
      subst hx
      simp at this
    · cases h
  · cases h

/-- A value produced by `urlparse(...).hostname` contains no slash. -/
theorem pyHostnameChars_no_slash {l t : List Char}
    (h : pyHostnameChars l = some t) : '/' ∉ t := by
  unfold pyHostnameChars at h
  split at h
  · cases h
  · rename_i hne
    cases h
    intro hmem
    unfold pyLower at hmem
    obtain ⟨c, hc, hcl⟩ := List.mem_map.mp hmem
    have hcs : c = '/' := toLower_eq_slash hcl
    subst hcs
    exact mem_netlocOf_ne_slash (mem_hostPortion hc) rfl

theorem findColonSplit_eq {l pre post : List Char}
    (h : findColonSplit l = some (pre, post)) : l = pre ++ ':' :: post := by
  induction l generalizing pre post with
  | nil => cases h
  | cons a rest ih =>
    by_cases ha : a = ':'
    · subst ha
      simp only [findColonSplit, if_pos rfl] at h
      cases h
      rfl
    · simp only [findColonSplit, if_neg ha] at h
      cases hr : findColonSplit rest with
      | none => rw [hr] at h; cases h
      | some pp =>
        obtain ⟨pre2, post2⟩ := pp
        rw [hr] at h
        simp only at h
        cases h
        rw [ih hr]
        rfl

theorem mem_afterScheme {x : Char} {l : List Char} (h : x ∈ afterScheme l) : x ∈ l := by
  unfold afterScheme at h
  cases hf : findColonSplit l with
  | none => rw [hf] at h; exact h
  | some pp =>
    obtain ⟨pre, post⟩ := pp
    rw [hf] at h
    simp only [] at h
    split at h
    · rw [findColonSplit_eq hf]
      simp only [List.mem_append, List.mem_cons]
      exact .inr (.inr h)
    · exact h

theorem netlocOf_nil_of_no_slash {l : List Char} (h : '/' ∉ l) : netlocOf l = [] := by
  unfold netlocOf
  cases has : afterScheme l with
  | nil => rfl
  | cons a rest1 =>
    cases rest1 with
    | nil => rfl
    | cons b rest2 =>
      simp only
      rw [if_neg]
      intro ⟨ha, hb⟩
      subst ha
      exact h (mem_afterScheme (has ▸ List.mem_cons_self _ _))

/-- A bare hostname string itself parses to no hostname: it has no slash, so
no netloc. -/
theorem pyHostnameChars_of_no_slash {l : List Char} (h : '/' ∉ l) :
    pyHostnameChars l = none := by
  have hd : '/' ∉ urlUnsafeDrop l := by
    intro hm
    exact h (List.mem_of_mem_filter hm)
  unfold pyHostnameChars
  rw [netlocOf_nil_of_no_slash hd]
  rfl

theorem pyHostname_of_pyHostname {s t : String}
    (h : pyHostname s = some t) : pyHostname t = none := by
  unfold pyHostname at h ⊢
  cases hc : pyHostnameChars s.data with
  | none => rw [hc] at h; cases h
  | some tc =>
    rw [hc] at h
    simp only [Option.map_some'] at h
    have hns : '/' ∉ t.data := by
      cases h
      exact pyHostnameChars_no_slash hc
    rw [pyHostnameChars_of_no_slash hns]
    rfl

/-! ### Dispatch-key lemmas for C6 -/

/-- The four lookup keys registered for one base URL. -/
def regKeyOf (b k : String) : Prop :=
  k = b ∨ k = stripWWW b ∨ pyHostname b = some k ∨ pyHostname (stripWWW b) = some k

instance (b k : String) : Decidable (regKeyOf b k) := by
  unfold regKeyOf
  infer_instance

theorem dget_dset_self {α : Type} (d : Dict α) (k : String) (v : α) :
    dget (dset d k v) k = some v := by
  rw [dget_dset, if_pos rfl]

theorem dget_dset_keep {α : Type} {d : Dict α} {k : String} {v : α}
    (h : dget d k = some v) (k0 : String) : dget (dset d k0 v) k = some v := by
  rw [dget_dset]
  split
  · rfl
  · exact h

theorem dget_dset_ne {α : Type} (d : Dict α) {k0 k : String} (h : k0 ≠ k) (v : α) :
    dget (dset d k0 v) k = dget d k := by
  rw [dget_dset, if_neg h]

theorem dget_registerKeys_keep {cl : Dict Desc} {d : Desc} {k : String}
    (h : dget cl k = some d) (url : String) :
    dget (registerKeys cl d url) k = some d := by
  unfold registerKeys
  cases h1 : pyHostname url <;> cases h2 : pyHostname (stripWWW url) <;>
    simp only [h1, h2] <;>
    first
    | exact dget_dset_keep (dget_dset_keep h _) _
    | exact dget_dset_keep (dget_dset_keep (dget_dset_keep h _) _) _
    | exact dget_dset_keep (dget_dset_keep (dget_dset_keep (dget_dset_keep h _) _) _) _

theorem dget_registerKeys_cover {d : Desc} {url k : String}
    (h : regKeyOf url k) (cl : Dict Desc) :
    dget (registerKeys cl d url) k = some d := by
  unfold registerKeys
  rcases h with rfl | rfl | hh | hh
  · cases h1 : pyHostname k <;> cases h2 : pyHostname (stripWWW k) <;>
      simp only [h1, h2] <;>
      first
      | exact dget_dset_keep (dget_dset_self _ _ _) _
      | exact dget_dset_keep (dget_dset_keep (dget_dset_self _ _ _) _) _
      | exact dget_dset_keep (dget_dset_keep (dget_dset_keep (dget_dset_self _ _ _) _) _) _
  · cases h1 : pyHostname url <;> cases h2 : pyHostname (stripWWW url) <;>
      simp only [h1, h2] <;>
      first
      | exact dget_dset_self _ _ _
      | exact dget_dset_keep (dget_dset_self _ _ _) _
      | exact dget_dset_keep (dget_dset_keep (dget_dset_self _ _ _) _) _
  · simp only [hh]
    cases h2 : pyHostname (stripWWW url) <;>
      simp only [h2] <;>
      first
      | exact dget_dset_self _ _ _
      | exact dget_dset_keep (dget_dset_self _ _ _) _
  · simp only [hh]
    exact dget_dset_self _ _ _

theorem dget_registerKeys_frame {d : Desc} {url k : String}
    (h : ¬ regKeyOf url k) (cl : Dict Desc) :
    dget (registerKeys cl d url) k = dget cl k := by
  unfold regKeyOf at h
  push_neg at h
  obtain ⟨h1', h2', h3', h4'⟩ := h
  unfold registerKeys
  cases hh1 : pyHostname url with
  | none =>
    cases hh2 : pyHostname (stripWWW url) with
    | none =>
      simp only [hh1, hh2]
      rw [dget_dset_ne _ (fun he => h2' he.symm) _,
          dget_dset_ne _ (fun he => h1' he.symm) _]
    | some y =>
      have hy : y ≠ k := fun he => h4' (he ▸ hh2)
      simp only [hh1, hh2]
      rw [dget_dset_ne _ hy _, dget_dset_ne _ (fun he => h2' he.symm) _,
          dget_dset_ne _ (fun he => h1' he.symm) _]
  | some x =>
    have hx : x ≠ k := fun he => h3' (he ▸ hh1)
    cases hh2 : pyHostname (stripWWW url) with
    | none =>
      simp only [hh1, hh2]
      rw [dget_dset_ne _ hx _, dget_dset_ne _ (fun he => h2' he.symm) _,
          dget_dset_ne _ (fun he => h1' he.symm) _]
    | some y =>
      have hy : y ≠ k := fun he => h4' (he ▸ hh2)
      simp only [hh1, hh2]
      rw [dget_dset_ne _ hy _, dget_dset_ne _ hx _,
          dget_dset_ne _ (fun he => h2' he.symm) _,
          dget_dset_ne _ (fun he => h1' he.symm) _]

theorem registerFold_keep {d : Desc} {k : String} (bs : List String)
    {cl : Dict Desc} (h : dget cl k = some d) :
    dget (bs.foldl (fun cl url => registerKeys cl d url) cl) k = some d := by
  induction bs generalizing cl with
  | nil => exact h
  | cons b rest ih => exact ih (dget_registerKeys_keep h b)

theorem registerFold_cover {d : Desc} {k : String} {bs : List String}
    (h : ∃ b ∈ bs, regKeyOf b k) (cl : Dict Desc) :
    dget (bs.foldl (fun cl url => registerKeys cl d url) cl) k = some d := by
  induction bs generalizing cl with
  | nil => obtain ⟨b, hb, _⟩ := h; cases hb
  | cons b rest ih =>
    obtain ⟨b', hb', hkey⟩ := h
    rcases List.mem_cons.mp hb' with rfl | hmem
    · exact registerFold_keep rest (dget_registerKeys_cover hkey cl)
    · exact ih ⟨b', hmem, hkey⟩ _

theorem registerFold_frame {d : Desc} {k : String} {bs : List String}
    (h : ∀ b ∈ bs, ¬ regKeyOf b k) (cl : Dict Desc) :
    dget (bs.foldl (fun cl url => registerKeys cl d url) cl) k = dget cl k := by
  induction bs generalizing cl with
  | nil => rfl
  | cons b rest ih =>
    rw [List.foldl_cons, ih (fun b' hb' => h b' (List.mem_cons_of_mem _ hb')),
        dget_registerKeys_frame (h b (List.mem_cons_self _ _))]

/-- The dispatch table built by registering a single handler: a key maps to
`x` exactly when `x` is that handler and the key is one of the four variants
of one of its base URLs. -/
theorem registerDesc_empty_char (d : Desc) (k : String) (x : Desc) :
    dget (registerDesc [] d) k = some x ↔
      x = d ∧ ∃ b ∈ d.base_url, regKeyOf b k := by
  unfold registerDesc
  constructor
  · intro h
    by_cases hex : ∃ b ∈ d.base_url, regKeyOf b k
    · rw [registerFold_cover hex []] at h
      cases h
      exact ⟨rfl, hex⟩
    · push_neg at hex
      rw [registerFold_frame hex []] at h
      cases h
  · rintro ⟨rfl, hex⟩
    exact registerFold_cover hex []

theorem mem_dset {α : Type} {cl : Dict α} {k : String} {v : α} {p : String × α}
    (h : p ∈ dset cl k v) : p = (k, v) ∨ p ∈ cl := by
  induction cl with
  | nil => simp only [dset, List.mem_singleton] at h; exact .inl h
  | cons q rest ih =>
    obtain ⟨a, b⟩ := q
    by_cases hak : a = k
    · subst hak
      simp only [dset, if_pos rfl] at h
      rcases List.mem_cons.mp h with rfl | hm
      · exact .inl rfl
      · exact .inr (List.mem_cons_of_mem _ hm)
    · simp only [dset, if_neg hak] at h
      rcases List.mem_cons.mp h with rfl | hm
      · exact .inr (List.mem_cons_self _ _)
      · rcases ih hm with h1 | h1
        · exact .inl h1
        · exact .inr (List.mem_cons_of_mem _ h1)

theorem mem_registerKeys {cl : Dict Desc} {d : Desc} {url : String} {p : String × Desc}
    (h : p ∈ registerKeys cl d url) : p.2 = d ∨ p ∈ cl := by
  unfold registerKeys at h
  cases h1 : pyHostname url <;> cases h2 : pyHostname (stripWWW url) <;>
    simp only [h1, h2] at h <;>
    repeat'
      first
      | (rcases mem_dset h with rfl | h; · exact .inl rfl)
      | exact .inr h

theorem mem_registerDesc {d : Desc} {p : String × Desc} {cl : Dict Desc} {bs : List String}
    (h : p ∈ bs.foldl (fun cl url => registerKeys cl d url) cl) :
    p.2 = d ∨ p ∈ cl := by
  induction bs generalizing cl with
  | nil => exact .inr h
  | cons b rest ih =>
    rcases ih h with h1 | h1
    · exact .inl h1
    · exact mem_registerKeys h1

theorem pyHostname_some_no_slash {s t : String} (h : pyHostname s = some t) :
    '/' ∉ t.data := by
  unfold pyHostname at h
  cases hc : pyHostnameChars s.data with
  | none => rw [hc] at h; cases h
  | some tc =>
    rw [hc] at h
    simp only [Option.map_some'] at h
    cases h
    exact pyHostnameChars_no_slash hc

theorem orElse_eq_some {α : Type} {x : Option α} {f : Unit → Option α} {v : α}
    (h : x.orElse f = some v) : x = some v ∨ f () = some v := by
  cases x with
  | none => exact .inr (by simpa [Option.orElse] using h)
  | some w => exact .inl (by simpa [Option.orElse] using h)

/-- A successful resolution serves a value of the dispatch table. -/
theorem prepare_ok_mem {cl : Dict Desc} {rej : Dict String} {u : String} {x : Desc}
    (h : prepare_crawler cl rej u = .ok x) : ∃ k, dget cl k = some x := by
  unfold prepare_crawler at h
  cases hh : pyHostname u with
  | none => simp only [hh] at h; cases h
  | some host =>
    cases hsh : pyHostname (stripWWW u) with
    | none => simp only [hh, hsh] at h; cases h
    | some nwh =>
      simp only [hh, hsh] at h
      cases hrej : dget rej u with
      | some r => rw [hrej] at h; simp at h
      | none =>
        rw [hrej] at h
        simp only [] at h
        cases hch : (((dget cl u).orElse fun _ => dget cl host).orElse
            fun _ => dget cl (stripWWW u)).orElse fun _ => dget cl nwh with
        | none => rw [hch] at h; simp at h
        | some c =>
          rw [hch] at h
          simp only [Except.ok.injEq] at h
          subst h
          rcases orElse_eq_some hch with h1 | h1
          · rcases orElse_eq_some h1 with h2 | h2
            · rcases orElse_eq_some h2 with h3 | h3
              · exact ⟨u, h3⟩
              · exact ⟨host, h3⟩
            · exact ⟨stripWWW u, h2⟩
          · exact ⟨nwh, h1⟩

/-- When both hostnames exist and the URL is not rejected, resolution
succeeds exactly when one of the four probe keys is mapped. -/
theorem prepare_isOk_iff (cl : Dict Desc) (rej : Dict String) (u : String)
    (h sh : String) (hh : pyHostname u = some h)
    (hsh : pyHostname (stripWWW u) = some sh) (hrej : dget rej u = none) :
    (∃ x, prepare_crawler cl rej u = .ok x) ↔
      ((dget cl u).isSome ∨ (dget cl h).isSome ∨
       (dget cl (stripWWW u)).isSome ∨ (dget cl sh).isSome) := by
  unfold prepare_crawler
  simp only [hh, hsh, hrej]
  cases hd1 : dget cl u <;> cases hd2 : dget cl h <;>
    cases hd3 : dget cl (stripWWW u) <;> cases hd4 : dget cl sh <;>
    simp [Option.orElse]

/-! ### C6 -/

def c6X : Desc :=
  { name := "CSixWww", base_url := ["http://www.a.com/x/"], language := "en",
    file_path := "sources/en/c6x.py",
    can_login := false, can_logout := false, can_search := false }

def c6Y : Desc :=
  { name := "CSixBare", base_url := ["http://a.com/x/"], language := "en",
    file_path := "sources/en/c6y.py",
    can_login := false, can_logout := false, can_search := false }

/-- The dispatch table after registering the `www` handler, then the bare
one (the later registration overwrites the shared keys). -/
def c6CL : Dict Desc := registerDesc (registerDesc [] c6X) c6Y

/-- C6 counterexample: the two URLs differ only by the `www.` host prefix
(the second is the `www`-stripped form of the first and is itself
`www`-free), yet the resolver returns two different handlers, because the
exact-URL key of the first still maps to the first handler while the
second handler overwrote the shared keys. -/
theorem C6_counterexample :
    stripWWW "http://www.a.com/x/" = "http://a.com/x/" ∧
    stripWWW "http://a.com/x/" = "http://a.com/x/" ∧
    prepare_crawler c6CL [] "http://www.a.com/x/" = .ok c6X ∧
    prepare_crawler c6CL [] "http://a.com/x/" = .ok c6Y ∧
    c6X ≠ c6Y := by
  exact ⟨by decide, by decide, by decide, by decide, by decide⟩

/-- C6 (amended): the property holds only for single-handler dispatch
tables.  (i) When every entry of the table maps to one handler `d`, any two
URLs that both resolve — in particular two URLs differing only by a `www.`
host prefix or a trailing slash — return the same handler.  (ii) With the
table built by registering a single handler and neither URL rejected, a URL
and its trailing-slash variant resolve or fail together.  (iii) The table
built by registering a single handler indeed maps every key to it. -/
theorem C6_single_handler_resolution :
    (∀ (cl : Dict Desc) (rej : Dict String) (d : Desc) (u1 u2 : String) (x y : Desc),
      (∀ p ∈ cl, p.2 = d) →
      prepare_crawler cl rej u1 = .ok x →
      prepare_crawler cl rej u2 = .ok y → x = y) ∧
    (∀ (d : Desc) (rej : Dict String) (u2 h sh : String),
      pyHostname u2 = some h → pyHostname (stripWWW u2) = some sh →
      dget rej (u2 ++ "/") = none → dget rej u2 = none →
      ((∃ x, prepare_crawler (registerDesc [] d) rej (u2 ++ "/") = .ok x) ↔
       (∃ x, prepare_crawler (registerDesc [] d) rej u2 = .ok x))) ∧
    (∀ (d : Desc) (p : String × Desc), p ∈ registerDesc [] d → p.2 = d) := by
  refine ⟨?_, ?_, ?_⟩
  · intro cl rej d u1 u2 x y hval h1 h2
    obtain ⟨k1, hk1⟩ := prepare_ok_mem h1
    obtain ⟨k2, hk2⟩ := prepare_ok_mem h2
    have hx := hval (k1, x) (dget_some_mem hk1)
    have hy := hval (k2, y) (dget_some_mem hk2)
    simp only at hx hy
    rw [hx, hy]
  · intro d rej u2 h sh hh hsh hrej1 hrej2
    have hchar : ∀ k x, dget (registerDesc [] d) k = some x ↔
        x = d ∧ ∃ b ∈ d.base_url, regKeyOf b k :=
      fun k x => registerDesc_empty_char d k x
    have hsome : ∀ k, (∃ b ∈ d.base_url, regKeyOf b k) →
        (dget (registerDesc [] d) k).isSome := by
      intro k hex
      rw [(hchar k d).mpr ⟨rfl, hex⟩]
      rfl
    have hH1 : pyHostname (u2 ++ "/") = some h := by
      rw [pyHostname_append_slash]; exact hh
    have hstrip : stripWWW (u2 ++ "/") = stripWWW u2 ++ "/" := stripWWW_append_slash u2
    have hSH1 : pyHostname (stripWWW (u2 ++ "/")) = some sh := by
      rw [hstrip, pyHostname_append_slash]; exact hsh
    have hslash1 : '/' ∈ (u2 ++ "/").data := by
      rw [string_data_append]
      exact List.mem_append_right _ (List.mem_singleton.mpr rfl)
    have hslash2 : '/' ∈ (stripWWW (u2 ++ "/")).data := by
      rw [hstrip, string_data_append]
      exact List.mem_append_right _ (List.mem_singleton.mpr rfl)
    rw [prepare_isOk_iff (registerDesc [] d) rej (u2 ++ "/") h sh hH1 hSH1 hrej1,
        prepare_isOk_iff (registerDesc [] d) rej u2 h sh hh hsh hrej2]
    constructor
    · rintro (h1 | h1 | h1 | h1)
      · obtain ⟨x, hx⟩ := Option.isSome_iff_exists.mp h1
        obtain ⟨-, b, hb, hkey⟩ := (hchar _ _).mp hx
        rcases hkey with hk | hk | hk | hk
        · exact .inr (.inl (hsome h ⟨b, hb, .inr (.inr (.inl (hk ▸ hH1)))⟩))
        · exact .inr (.inl (hsome h ⟨b, hb, .inr (.inr (.inr (hk ▸ hH1)))⟩))
        · exact absurd hslash1 (pyHostname_some_no_slash hk)
        · exact absurd hslash1 (pyHostname_some_no_slash hk)
      · exact .inr (.inl h1)
      · obtain ⟨x, hx⟩ := Option.isSome_iff_exists.mp h1
        obtain ⟨-, b, hb, hkey⟩ := (hchar _ _).mp hx
        rcases hkey with hk | hk | hk | hk
        · exact .inr (.inr (.inr (hsome sh ⟨b, hb, .inr (.inr (.inl (hk ▸ hSH1)))⟩)))
        · exact .inr (.inr (.inr (hsome sh ⟨b, hb, .inr (.inr (.inr (hk ▸ hSH1)))⟩)))
        · exact absurd hslash2 (pyHostname_some_no_slash hk)
        · exact absurd hslash2 (pyHostname_some_no_slash hk)
      · exact .inr (.inr (.inr h1))
    · rintro (h1 | h1 | h1 | h1)
      · obtain ⟨x, hx⟩ := Option.isSome_iff_exists.mp h1
        obtain ⟨-, b, hb, hkey⟩ := (hchar _ _).mp hx
        rcases hkey with hk | hk | hk | hk
        · exact .inr (.inl (hsome h ⟨b, hb, .inr (.inr (.inl (hk ▸ hh)))⟩))
        · exact .inr (.inl (hsome h ⟨b, hb, .inr (.inr (.inr (hk ▸ hh)))⟩))
        · rw [pyHostname_of_pyHostname hk] at hh; cases hh
        · rw [pyHostname_of_pyHostname hk] at hh; cases hh
      · exact .inr (.inl h1)
      · obtain ⟨x, hx⟩ := Option.isSome_iff_exists.mp h1
        obtain ⟨-, b, hb, hkey⟩ := (hchar _ _).mp hx
        rcases hkey with hk | hk | hk | hk
        · exact .inr (.inr (.inr (hsome sh ⟨b, hb, .inr (.inr (.inl (hk ▸ hsh)))⟩)))
        · exact .inr (.inr (.inr (hsome sh ⟨b, hb, .inr (.inr (.inr (hk ▸ hsh)))⟩)))
        · rw [pyHostname_of_pyHostname hk] at hsh; cases hsh
        · rw [pyHostname_of_pyHostname hk] at hsh; cases hsh
      · exact .inr (.inr (.inr h1))
  · intro d p hp
    rcases mem_registerDesc hp with h1 | h1
    · exact h1
    · cases h1

theorem C6_witness :
    ((∃ x, prepare_crawler (registerDesc [] c6X) [] ("http://www.a.com/x" ++ "/") = .ok x) ↔
     (∃ x, prepare_crawler (registerDesc [] c6X) [] "http://www.a.com/x" = .ok x)) :=
  C6_single_handler_resolution.2.1 c6X [] "http://www.a.com/x" "www.a.com" "a.com"
    (by decide) (by decide) (by decide) (by decide)

end LNCrawl
